/-
Verification of the wtx-explorer indexing core against its specification.

The development shallowly embeds the indexer (`src/backend/src/indexer.js`),
the storage layer (`db.js`: SQLite tables and prepared statements) and the
read-side helpers of `src/server.js` into Lean.

Modelling conventions:
* SQLite tables become lists of row structures.  Tables written with
  `INSERT OR REPLACE` on a primary key are updated by a key-preserving
  upsert; tables written with plain `INSERT` (autoincrement synthetic id:
  `event_logs`, `token_transfers`) are append-only lists.
* Each prepared-statement execution is one auto-committed write unit; the
  explicit `db.transaction` wrapper in `indexBlock` is one unit.  A run of
  `indexBlock` is therefore a list of `WriteOp` units applied in program
  order (the completion order of the fire-and-forget async receipt writes
  is abstracted to program order).
* RPC calls are a deterministic `Node` of `Except Unit` valued functions;
  `.error ()` models a thrown/failed call, `.ok` a result.  A block fetch
  may also return `none` (node reports not-found).
* JavaScript numbers that are integers in practice are `Int`/`Nat`.  The
  cursor value is stored through `height.toString()` and read back with
  `parseInt`; this decimal round-trip is modelled as the identity, so the
  `indexer_state` table maps keys to `Int` values directly.
* JS `String.prototype.toLowerCase` is modelled character-wise over the
  string's character list (ASCII case mapping, as in `Char.toLower`).
-/
import Mathlib

/-! ### Generic association-list helpers (SQLite keyed tables) -/

/-- `INSERT OR REPLACE` keyed by `key`: replace the first row with the same
key in place, otherwise append. -/
def upsertBy {α : Type} {κ : Type} [DecidableEq κ] (key : α → κ) (r : α) :
    List α → List α
  | [] => [r]
  | x :: xs => if key x = key r then r :: xs else x :: upsertBy key r xs

/-- `SELECT ... WHERE key = k LIMIT 1`. -/
def findBy {α : Type} {κ : Type} [DecidableEq κ] (key : α → κ) (k : κ) :
    List α → Option α
  | [] => none
  | x :: xs => if key x = k then some x else findBy key k xs

/-! ### String helpers mirroring the JavaScript operations -/

/-- JS `s.toLowerCase()` on the ASCII strings handled here (hex strings,
addresses, flags), expressed over the character list. -/
def toLowerStr (s : String) : String := String.mk (s.data.map Char.toLower)

/-- JS `s.slice(-n)` for `n ≥ 1`: the last `n` characters (the whole string
when it is shorter than `n`). -/
def sliceLast (n : Nat) (s : String) : String := s.drop (s.length - n)

/-- JS `s.includes(pat)` for non-empty `pat`: `splitOn` yields at least two
pieces exactly when the pattern occurs. -/
def jsStringIncludes (s pat : String) : Bool := (s.splitOn pat).length ≥ 2

/-- JS `x || null` applied to an optional string: the empty string is falsy
and collapses to `null`. -/
def jsOrNone (o : Option String) : Option String :=
  match o with
  | some a => if a = "" then none else some a
  | none => none

/-- JS `str.padStart(n, '0')`. -/
def padStartZeros (s : String) (n : Nat) : String :=
  String.mk (List.replicate (n - s.length) '0' ++ s.data)

/-- JS `frac.replace(/0+$/, '')`: strip trailing `'0'` characters. -/
def stripTrailingZeros (s : String) : String :=
  String.mk (s.data.reverse.dropWhile (fun c => c = '0')).reverse

/-- JS `formatted.replace(/\.$/, '')`: strip one trailing dot. -/
def stripTrailingDot (s : String) : String :=
  match s.data.reverse with
  | '.' :: rest => String.mk rest.reverse
  | _ => s

/-- Hex digit value, total (invalid characters contribute 0; all inputs the
program feeds it are valid hex). -/
def hexDigitVal (c : Char) : Nat :=
  if '0' ≤ c ∧ c ≤ '9' then c.toNat - 48
  else if 'a' ≤ c ∧ c ≤ 'f' then c.toNat - 87
  else if 'A' ≤ c ∧ c ≤ 'F' then c.toNat - 55
  else 0

/-- JS `BigInt('0x' ++ s)` on a hex string (without `0x` prefix). -/
def hexToNat (s : String) : Nat :=
  s.data.foldl (fun acc c => acc * 16 + hexDigitVal c) 0

/-! ### `server.js` helpers -/

/-- `server.js` line 14: Transfer event signature hash, without `0x`. -/
def TRANSFER_TOPIC_SRV : String :=
  "ddf252ad1be2c89b69c2b068fc378daa952ba7f163c4a11628f55a4df523b3ef"

/-- `server.js` `decodeUint256`: decimal rendering of a hex payload, `"0"`
for an absent/empty/`"0x"` payload. -/
def decodeUint256 (hex : Option String) : String :=
  match hex with
  | none => "0"
  | some h => if h = "" ∨ h = "0x" then "0" else toString (hexToNat h)

/-- `server.js` `decodeAddress`: last 40 hex characters of a padded 32-byte
word, `""` when absent or too short. -/
def decodeAddress (hex : Option String) : String :=
  match hex with
  | none => ""
  | some h => if h.length < 40 then "" else sliceLast 40 h

/-- `server.js` `formatTokenAmount`, including the exact JS `slice`
semantics: `str.slice(0, -0)` is the empty string and `str.slice(-0)` is
the whole string, because `-0 === 0` in JS. -/
def formatTokenAmount (amount : String) (decimals : Nat) : String :=
  let str := padStartZeros amount (decimals + 1)
  let whole0 := if decimals = 0 then "" else str.take (str.length - decimals)
  let whole := if whole0 = "" then "0" else whole0
  let frac := if decimals = 0 then str else sliceLast decimals str
  let formatted :=
    if frac ≠ "" then whole ++ "." ++ stripTrailingZeros frac else whole
  stripTrailingDot formatted

/-! ### Row types (`db.js` tables) -/

/-- A row of the `blocks` table (primary key `height`). -/
structure BlockRow where
  height : Int
  hash : String
  parentHash : Option String
  timestamp : Int
  miner : Option String
  difficulty : String
  gasLimit : String
  gasUsed : String
  txCount : Nat
  size : Nat
  nonce : String
  isPos : Nat
  blockReward : String
deriving DecidableEq, Repr

/-- A row of the `transactions` table (primary key `hash`). -/
structure TxRow where
  hash : String
  blockHeight : Int
  blockHash : String
  txIndex : Nat
  fromAddress : Option String
  toAddress : Option String
  value : String
  gas : String
  gasPrice : String
  gasUsed : String
  nonce : Nat
  input : String
  status : Nat
  contractAddress : Option String
  timestamp : Int
deriving DecidableEq, Repr

/-- A row of the `event_logs` table (synthetic autoincrement id; the list
position plays the role of the id). -/
structure LogRow where
  txHash : String
  logIndex : Nat
  address : Option String
  topic0 : Option String
  topic1 : Option String
  topic2 : Option String
  topic3 : Option String
  data : String
  blockHeight : Int
  timestamp : Int
  decodedName : Option String
  decodedArgs : Option String
deriving DecidableEq, Repr

/-- A row of the `tokens` table (primary key `address`). -/
structure TokenRow where
  address : String
  name : String
  symbol : String
  decimals : Int
  totalSupply : String
  owner : Option String
deriving DecidableEq, Repr

/-- A row of the `token_transfers` table (synthetic autoincrement id).
`value` is stored exactly as `log.data`, which may be absent (SQL NULL). -/
structure TransferRow where
  txHash : String
  logIndex : Nat
  tokenAddress : String
  fromAddress : String
  toAddress : String
  value : Option String
  blockHeight : Int
  timestamp : Int
deriving DecidableEq, Repr

/-- The persistent store: the tables the indexer writes.  `indexerState`
maps keys to the integer the stored decimal string denotes. -/
structure Store where
  blocks : List BlockRow
  transactions : List TxRow
  eventLogs : List LogRow
  tokens : List TokenRow
  tokenTransfers : List TransferRow
  indexerState : List (String × Int)
deriving DecidableEq, Repr

def emptyStore : Store := ⟨[], [], [], [], [], []⟩

/-- `statements.insertBlock` (`INSERT OR REPLACE`, key `height`). -/
def insertBlockRow (s : Store) (r : BlockRow) : Store :=
  { s with blocks := upsertBy BlockRow.height r s.blocks }

/-- `statements.insertTx` (`INSERT OR REPLACE`, key `hash`). -/
def insertTxRow (s : Store) (r : TxRow) : Store :=
  { s with transactions := upsertBy TxRow.hash r s.transactions }

/-- `statements.insertLog` (plain `INSERT`, autoincrement id). -/
def insertLogRow (s : Store) (r : LogRow) : Store :=
  { s with eventLogs := s.eventLogs ++ [r] }

/-- `statements.insertToken` (`INSERT OR REPLACE`, key `address`). -/
def insertTokenRow (s : Store) (r : TokenRow) : Store :=
  { s with tokens := upsertBy TokenRow.address r s.tokens }

/-- `statements.insertTransfer` (plain `INSERT`, autoincrement id). -/
def insertTransferRow (s : Store) (r : TransferRow) : Store :=
  { s with tokenTransfers := s.tokenTransfers ++ [r] }

/-- `statements.getToken`. -/
def getToken (s : Store) (addr : String) : Option TokenRow :=
  findBy TokenRow.address addr s.tokens

/-- `statements.getBlock` (by height). -/
def getBlockRow (s : Store) (h : Int) : Option BlockRow :=
  findBy BlockRow.height h s.blocks

/-- `statements.getIndexerState`. -/
def getIndexerState (s : Store) (k : String) : Option Int :=
  (findBy Prod.fst k s.indexerState).map Prod.snd

/-- `statements.setIndexerState` (`INSERT OR REPLACE`, key `key`). -/
def setIndexerState (s : Store) (k : String) (v : Int) : Store :=
  { s with indexerState := upsertBy Prod.fst (k, v) s.indexerState }

/-! ### Raw RPC payload shapes (`§6` of the spec, `rpc.js` results) -/

/-- One event-log entry of a transaction receipt. -/
structure RpcLog where
  address : Option String
  topics : List String
  data : Option String
deriving DecidableEq, Repr

/-- One receipt entry from `gettransactionreceipt`. -/
structure RpcReceipt where
  contractAddress : Option String
  log : Option (List RpcLog)
deriving DecidableEq, Repr

/-- `vout[i].scriptPubKey`. -/
structure RpcScriptPubKey where
  type : Option String
  address : Option String
  addresses : List String
  hex : Option String
deriving DecidableEq, Repr

/-- One transaction output.  The source computes
`Math.round((vout.value || 0) * 1e8)`; `valueSats` carries the resulting
integer satoshi amount directly (float arithmetic abstracted), `none` for
an absent `value` field (which the source treats as 0). -/
structure RpcVout where
  scriptPubKey : Option RpcScriptPubKey
  valueSats : Option Int
deriving DecidableEq, Repr

/-- One transaction input.  The source inspects `vin[0].scriptSig?.asm`
but the branch body is empty, so only the field is modelled. -/
structure RpcVin where
  scriptSigAsm : Option String
deriving DecidableEq, Repr

/-- One transaction of a verbosity-2 block (always an object here; the
source's `typeof tx === 'object'` check is true for every entry). -/
structure RpcTx where
  txid : String
  vin : List RpcVin
  vout : List RpcVout
deriving DecidableEq, Repr

/-- A verbosity-2 block from `getblock`.  `difficulty` and `nonce` carry
the source's `?.toString()` renderings. -/
structure RpcBlock where
  height : Int
  hash : String
  previousblockhash : Option String
  time : Int
  miner : Option String
  difficulty : Option String
  flags : Option String
  tx : Option (List RpcTx)
  size : Option Nat
  nonce : Option String
deriving DecidableEq, Repr

/-- The deterministic RPC collaborator.  `.error ()` models a thrown call;
`getBlock` additionally returns `none` when the node reports not-found. -/
structure Node where
  getBlockCount : Except Unit Int
  getBlock : Int → Except Unit (Option RpcBlock)
  getTransactionReceipt : String → Except Unit (Option (List RpcReceipt))
  getTokenName : String → Except Unit String
  getTokenSymbol : String → Except Unit String
  getTokenDecimals : String → Except Unit Int
  getTokenTotalSupply : String → Except Unit String

/-! ### The indexer (`indexer.js`) -/

/-- `indexer.js` line 207: Transfer event signature hash, `0x`-prefixed. -/
def TRANSFER_TOPIC : String :=
  "0xddf252ad1be2c89b69c2b068fc378daa952ba7f163c4a11628f55a4df523b3ef"

/-- `this.batchSize = 10` (constructor). -/
def batchSize : Nat := 10

/-- One auto-committed write unit.  `blockUnit` is the explicit
`db.transaction` of `indexBlock` (the block row plus its transaction
rows); the receipt-path statements each commit individually. -/
inductive WriteOp where
  | blockUnit (b : BlockRow) (txs : List TxRow)
  | logW (r : LogRow)
  | tokenW (addr : String) (row : TokenRow)
  | transferW (r : TransferRow)
deriving DecidableEq, Repr

/-- Apply one write unit.  `tokenW` is `detectToken`'s effect: the lookup
of the existing row happens at execution time, the insert only when the
token is absent. -/
def applyOp (s : Store) : WriteOp → Store
  | .blockUnit b txs => txs.foldl insertTxRow (insertBlockRow s b)
  | .logW r => insertLogRow s r
  | .tokenW addr row =>
      if (getToken s addr).isSome then s else insertTokenRow s row
  | .transferW r => insertTransferRow s r

def applyOps (s : Store) (ops : List WriteOp) : Store := ops.foldl applyOp s

/-- The token row `detectToken(address)` builds when the token is absent:
four independent probes, each failure replaced by its placeholder
(`'Unknown'` / `'???'` / `18` / `'0'`), the address lower-cased. -/
def detectTokenRow (node : Node) (address : String) : TokenRow :=
  { address := toLowerStr address
  , name := (node.getTokenName address).toOption.getD "Unknown"
  , symbol := (node.getTokenSymbol address).toOption.getD "???"
  , decimals := (node.getTokenDecimals address).toOption.getD 18
  , totalSupply := (node.getTokenTotalSupply address).toOption.getD "0"
  , owner := none }

/-- The write unit of a `detectToken(address)` call: the existence check is
keyed by `address.toLowerCase()`. -/
def detectTokenOp (node : Node) (address : String) : WriteOp :=
  .tokenW (toLowerStr address) (detectTokenRow node address)

/-- `Indexer.detectToken`, with its full interface: the returned row (the
fresh case returns the probe results with the raw address, line 251), the
updated store, and the list of node probe calls issued. -/
inductive ProbeCall where
  | name | symbol | decimals | totalSupply
deriving DecidableEq, Repr

def detectToken (node : Node) (s : Store) (address : String) :
    Option TokenRow × Store × List ProbeCall :=
  match getToken s (toLowerStr address) with
  | some existing => (some existing, s, [])
  | none =>
      let row := detectTokenRow node address
      (some { row with address := address }, insertTokenRow s row,
        [.name, .symbol, .decimals, .totalSupply])

/-- `Indexer.indexLog`: the event-log row is always inserted; when the log
is a Transfer with at least 3 topics the token is detected and a transfer
row inserted, with `value` stored as the raw `log.data`.  The `Bool` is
false when the source would throw (`log.address.toLowerCase()` on an
absent address), aborting the caller's remaining logs. -/
def indexLogOps (node : Node) (txid : String) (log : RpcLog)
    (blk : RpcBlock) (logIndex : Nat) : List WriteOp × Bool :=
  let topics := log.topics
  let logRow : LogRow :=
    { txHash := txid
    , logIndex := logIndex
    , address := jsOrNone (log.address.map toLowerStr)
    , topic0 := topics[0]?
    , topic1 := topics[1]?
    , topic2 := topics[2]?
    , topic3 := topics[3]?
    , data := log.data.getD "0x"
    , blockHeight := blk.height
    , timestamp := blk.time
    , decodedName := none
    , decodedArgs := none }
  if topics[0]? = some TRANSFER_TOPIC ∧ 3 ≤ topics.length then
    match log.address with
    | none => ([.logW logRow], false)
    | some a =>
        let tokenAddress := toLowerStr a
        let fromA := "0x" ++ toLowerStr (sliceLast 40 (topics.getD 1 ""))
        let toA := "0x" ++ toLowerStr (sliceLast 40 (topics.getD 2 ""))
        let transferRow : TransferRow :=
          { txHash := txid
          , logIndex := logIndex
          , tokenAddress := tokenAddress
          , fromAddress := fromA
          , toAddress := toA
          , value := log.data
          , blockHeight := blk.height
          , timestamp := blk.time }
        ([.logW logRow, detectTokenOp node tokenAddress,
          .transferW transferRow], true)
  else ([.logW logRow], true)

/-- The `for (let i = 0; ...)` loop over one receipt's logs; a throw stops
the remaining logs. -/
def indexLogsOps (node : Node) (txid : String) (blk : RpcBlock) :
    Nat → List RpcLog → List WriteOp × Bool
  | _, [] => ([], true)
  | i, lg :: rest =>
      let (ops, ok) := indexLogOps node txid lg blk i
      if ok then
        let (ops2, ok2) := indexLogsOps node txid blk (i + 1) rest
        (ops ++ ops2, ok2)
      else (ops, false)

/-- One entry of the receipts array: its logs, then `detectToken` on the
receipt's `contractAddress` when present. -/
def indexReceiptEntryOps (node : Node) (txid : String) (blk : RpcBlock)
    (receipt : RpcReceipt) : List WriteOp × Bool :=
  let (logOps, ok) :=
    match receipt.log with
    | some logs => indexLogsOps node txid blk 0 logs
    | none => ([], true)
  if ok then
    match receipt.contractAddress with
    | some ca => (logOps ++ [detectTokenOp node ca], true)
    | none => (logOps, true)
  else (logOps, false)

/-- The loop over the receipts array; a throw stops the remaining
entries. -/
def indexReceiptsOps (node : Node) (txid : String) (blk : RpcBlock) :
    List RpcReceipt → List WriteOp × Bool
  | [] => ([], true)
  | r :: rest =>
      let (ops, ok) := indexReceiptEntryOps node txid blk r
      if ok then
        let (ops2, ok2) := indexReceiptsOps node txid blk rest
        (ops ++ ops2, ok2)
      else (ops, false)

/-- `Indexer.indexReceipt`: a failed or absent receipt yields no writes,
and its surrounding `try/catch` absorbs any throw from the log loop (the
units already run stay committed). -/
def indexReceiptOps (node : Node) (txid : String) (blk : RpcBlock) :
    List WriteOp :=
  match node.getTransactionReceipt txid with
  | .error _ => []
  | .ok none => []
  | .ok (some receipts) => (indexReceiptsOps node txid blk receipts).1

/-- `Indexer.indexTransaction`, row-building part.  `fromAddress` stays
null (the `scriptSig` branch of the source has an empty body); `toAddress`
and `value` come from the first output; the output scan sets
`contract_address` from `create` outputs and the input data from `call`
outputs. -/
def indexTransactionRow (tx : RpcTx) (blk : RpcBlock) (txIndex : Nat) :
    TxRow :=
  let toAddress : Option String :=
    match tx.vout[0]? with
    | some v0 =>
        match v0.scriptPubKey with
        | some spk =>
            match spk.address with
            | some a => some a
            | none => spk.addresses[0]?
        | none => none
    | none => none
  let value : String :=
    match tx.vout[0]? with
    | some v0 => toString (v0.valueSats.getD 0)
    | none => "0"
  let scan :=
    tx.vout.foldl
      (fun (acc : Option String × String) v =>
        match v.scriptPubKey with
        | some spk =>
            if spk.type = some "create" then (jsOrNone spk.address, acc.2)
            else if spk.type = some "call" then (acc.1, spk.hex.getD "0x")
            else acc
        | none => acc)
      (none, "0x")
  { hash := tx.txid
  , blockHeight := blk.height
  , blockHash := blk.hash
  , txIndex := txIndex
  , fromAddress := none
  , toAddress := jsOrNone (toAddress.map toLowerStr)
  , value := value
  , gas := "0"
  , gasPrice := "0"
  , gasUsed := "0"
  , nonce := 0
  , input := scan.2
  , status := 1
  , contractAddress := jsOrNone (scan.1.map toLowerStr)
  , timestamp := blk.time }

/-- The `blocks` row `Indexer.indexBlock` inserts for a fetched block. -/
def blockRowOf (height : Int) (b : RpcBlock) : BlockRow :=
  { height := height
  , hash := b.hash
  , parentHash := jsOrNone b.previousblockhash
  , timestamp := b.time
  , miner := jsOrNone b.miner
  , difficulty := b.difficulty.getD "0"
  , gasLimit := "0"
  , gasUsed := "0"
  , txCount := (b.tx.map List.length).getD 0
  , size := b.size.getD 0
  , nonce := b.nonce.getD "0"
  , isPos :=
      match b.flags with
      | some f => if jsStringIncludes f "proof-of-stake" then 1 else 0
      | none => 0
  , blockReward := "0" }

/-- The `for (let i = 0; i < block.tx.length; i++)` transaction-row
loop. -/
def buildTxRows (b : RpcBlock) : Nat → List RpcTx → List TxRow
  | _, [] => []
  | i, tx :: rest => indexTransactionRow tx b i :: buildTxRows b (i + 1) rest

/-- `Indexer.indexBlock` as its list of write units: a failed block fetch
propagates (`.error`), a not-found block writes nothing, otherwise the
atomic block+transactions unit is followed by the per-statement receipt
units of each transaction. -/
def blockReceiptOps (node : Node) (b : RpcBlock) : List WriteOp :=
  (b.tx.getD []).foldl (fun acc tx => acc ++ indexReceiptOps node tx.txid b)
    []

def indexBlockOps (node : Node) (height : Int) :
    Except Unit (List WriteOp) :=
  match node.getBlock height with
  | .error e => .error e
  | .ok none => .ok []
  | .ok (some b) =>
      .ok (.blockUnit (blockRowOf height b)
             (buildTxRows b 0 (b.tx.getD []))
            :: blockReceiptOps node b)

/-- `Indexer.indexBlock`: the store after all of the block's write units
have landed. -/
def indexBlock (node : Node) (s : Store) (height : Int) :
    Except Unit Store :=
  (indexBlockOps node height).map (applyOps s)

/-! ### The sync loop (`Indexer.sync`) -/

/-- `Indexer.getLastIndexedBlock`: `-1` when the `last_block` row is
absent. -/
def getLastIndexedBlock (s : Store) : Int :=
  (getIndexerState s "last_block").getD (-1)

/-- `Indexer.setLastIndexedBlock`. -/
def setLastIndexedBlock (s : Store) (h : Int) : Store :=
  setIndexerState s "last_block" h

/-- The ascending height list `[lo, lo+1, ..., hi]` driven by the batch
`for` loop. -/
def heightsFromTo (lo hi : Int) : List Int :=
  (List.range (hi + 1 - lo).toNat).map (fun i => lo + i)

/-- The batch `for` loop: index each height in order; a throw at some
height stops the batch there (earlier heights stay committed).  Returns
the store, the heights attempted, and whether the batch completed. -/
def runBatch (node : Node) : Store → List Int → Store × List Int × Bool
  | s, [] => (s, [], true)
  | s, hgt :: rest =>
      match indexBlock node s hgt with
      | .ok s2 =>
          let (s3, tr, ok) := runBatch node s2 rest
          (s3, hgt :: tr, ok)
      | .error _ => (s, [hgt], false)

/-- One iteration of the `while` loop of `Indexer.sync`: poll the chain
height, do nothing when caught up, otherwise run the batch
`[cursor+1, min(cursor+batchSize, chainHeight)]` and advance the cursor
only when the whole batch succeeded.  A thrown `getBlockCount` or batch
error is caught (back-off), leaving the cursor untouched.  The second
component is the list of heights attempted. -/
def syncStep (node : Node) (s : Store) : Store × List Int :=
  match node.getBlockCount with
  | .error _ => (s, [])
  | .ok chainHeight =>
      let lastIndexed := getLastIndexedBlock s
      if chainHeight ≤ lastIndexed then (s, [])
      else
        let startBlock := lastIndexed + 1
        let endBlock := min (startBlock + (batchSize : Int) - 1) chainHeight
        let r := runBatch node s (heightsFromTo startBlock endBlock)
        if r.2.2 then (setLastIndexedBlock r.1 endBlock, r.2.1)
        else (r.1, r.2.1)

/-! ### `server.js` token-holders derivation (`GET /api/token/:addr/holders`) -/

/-- One `searchlogs` result entry; only its `log` array is read by the
holders computation (`transactionHash`/`blockNumber` are not used
there). -/
structure SearchLogResult where
  log : Option (List RpcLog)
deriving DecidableEq, Repr

/-- The zero address literal the endpoint excludes from accounting. -/
def ZERO_ADDR_HEX : String := "0000000000000000000000000000000000000000"

/-- JS object assignment `balances[a] = v` (string keys keep insertion
order: a fresh key is appended). -/
def setBal : List (String × Int) → String → Int → List (String × Int)
  | [], a, v => [(a, v)]
  | (b, w) :: rest, a, v =>
      if b = a then (a, v) :: rest else (b, w) :: setBal rest a v

/-- JS read `balances[a]` (`none` = `undefined`). -/
def getBal (m : List (String × Int)) (a : String) : Option Int :=
  (findBy Prod.fst a m).map Prod.snd

/-- The body of the holders loop for one log entry:
`balances[from] -= value; balances[to] += value`, skipping the zero
address on either side, with `value = BigInt('0x' + (log.data || '0'))`. -/
def applyTransferLog (m : List (String × Int)) (log : RpcLog) :
    List (String × Int) :=
  if log.topics[0]? = some TRANSFER_TOPIC_SRV then
    let fromA := decodeAddress log.topics[1]?
    let toA := decodeAddress log.topics[2]?
    let value : Int := (hexToNat (log.data.getD "0") : Int)
    let m1 :=
      if fromA ≠ ZERO_ADDR_HEX then
        setBal m fromA ((getBal m fromA).getD 0 - value)
      else m
    if toA ≠ ZERO_ADDR_HEX then
      setBal m1 toA ((getBal m1 toA).getD 0 + value)
    else m1
  else m

/-- The nested `for (result of results) for (log of result.log || [])`
balance accumulation. -/
def holdersBalances (results : List SearchLogResult) :
    List (String × Int) :=
  results.foldl (fun m r => (r.log.getD []).foldl applyTransferLog m) []

/-- The reported holders: entries with strictly positive balance.  (The
source then sorts descending by balance and attaches display fields,
which reorders but neither adds nor removes entries.) -/
def holdersOf (results : List SearchLogResult) : List (String × Int) :=
  (holdersBalances results).filter (fun p => 0 < p.2)

/-- All log entries of all results, in iteration order. -/
def flattenLogs (results : List SearchLogResult) : List RpcLog :=
  results.foldl (fun acc r => acc ++ r.log.getD []) []

/-- Modelled from the spec: the signed Transfer delta one log contributes
to holder `a` — value added when `a` receives, subtracted when `a` sends,
the zero address excluded from both sides.  This definition follows the
spec's words and is compared against the endpoint's fold. -/
def transferDelta (a : String) (log : RpcLog) : Int :=
  if log.topics[0]? = some TRANSFER_TOPIC_SRV then
    (if decodeAddress log.topics[2]? = a ∧ a ≠ ZERO_ADDR_HEX then
        (hexToNat (log.data.getD "0") : Int) else 0)
    - (if decodeAddress log.topics[1]? = a ∧ a ≠ ZERO_ADDR_HEX then
        (hexToNat (log.data.getD "0") : Int) else 0)
  else 0

/-- Modelled from the spec: a holder's balance as the sum of signed
Transfer deltas over all of the token's Transfer logs, in order. -/
def specSignedBalance (results : List SearchLogResult) (a : String) : Int :=
  ((flattenLogs results).map (transferDelta a)).sum

/-! ### Concrete fixtures for counterexamples and witnesses -/

/-- 32-byte topic word whose low 20 bytes are `aa...aa`. -/
def topicAAAA : String :=
  "0x000000000000000000000000aaaaaaaaaaaaaaaaaaaaaaaaaaaaaaaaaaaaaaaa"

/-- 32-byte topic word whose low 20 bytes are `bb...bb`. -/
def topicBBBB : String :=
  "0x000000000000000000000000bbbbbbbbbbbbbbbbbbbbbbbbbbbbbbbbbbbbbbbb"

/-- 32-byte big-endian hex encoding of 1000. -/
def data1000 : String :=
  "00000000000000000000000000000000000000000000000000000000000003e8"

/-- A well-formed Transfer event log. -/
def exTransferLog : RpcLog :=
  { address := some "0xToKenAddr"
  , topics := [TRANSFER_TOPIC, topicAAAA, topicBBBB]
  , data := some data1000 }

/-- A one-transaction block at height 0 whose transaction emits
`exTransferLog`. -/
def exTx : RpcTx := { txid := "t0", vin := [], vout := [] }

def exBlock : RpcBlock :=
  { height := 0
  , hash := "bh0"
  , previousblockhash := none
  , time := 100
  , miner := none
  , difficulty := some "1"
  , flags := none
  , tx := some [exTx]
  , size := some 300
  , nonce := some "7" }

/-- A node serving `exBlock` at height 0, its Transfer receipt for `t0`,
and token probes of which the symbol probe fails. -/
def exNode : Node :=
  { getBlockCount := .ok 0
  , getBlock := fun h => if h = 0 then .ok (some exBlock) else .ok none
  , getTransactionReceipt := fun t =>
      if t = "t0" then .ok (some [{ contractAddress := none
                                  , log := some [exTransferLog] }])
      else .ok none
  , getTokenName := fun _ => .ok "Tok"
  , getTokenSymbol := fun _ => .error ()
  , getTokenDecimals := fun _ => .ok 8
  , getTokenTotalSupply := fun _ => .ok "1000000" }

/-! ### Verification-support definitions -/

/-- Write units that auto-commit individually on the receipt path (i.e.
everything except the explicit block transaction). -/
def isDeferred : WriteOp → Prop
  | .blockUnit _ _ => False
  | _ => True

instance : DecidablePred isDeferred := fun op => by
  cases op <;> simp [isDeferred] <;> infer_instance

/-- Every generated `tokenW` unit keys the existence check by the address
stored in the row it would insert. -/
def wfOp : WriteOp → Prop
  | .tokenW a row => row.address = a
  | _ => True

/-- The event-log rows a unit list appends, in order. -/
def logRowsOf (ops : List WriteOp) : List LogRow :=
  ops.filterMap fun op =>
    match op with
    | .logW r => some r
    | _ => none

/-- The token-transfer rows a unit list appends, in order. -/
def transferRowsOf (ops : List WriteOp) : List TransferRow :=
  ops.filterMap fun op =>
    match op with
    | .transferW r => some r
    | _ => none

/-- The write units of `indexBlock exNode _ 0` (used by the concrete
counterexamples). -/
def exOps : List WriteOp := (indexBlockOps exNode 0).toOption.getD []

/-- The store visible if execution stops right after the block's
`db.transaction` commits (the first write unit), before any of the
fire-and-forget receipt writes land. -/
def exPartialStore : Store := applyOps emptyStore (exOps.take 1)

/-- The store after one full `indexBlock exNode _ 0` run. -/
def exStore1 : Store := (indexBlock exNode emptyStore 0).toOption.getD emptyStore

/-- The store after re-indexing height 0 a second time. -/
def exStore2 : Store := (indexBlock exNode exStore1 0).toOption.getD emptyStore

/-- Gap-tolerance fixture: blocks exist at heights 1 and 3, the node
reports not-found at height 2. -/
def gapBlock1 : RpcBlock :=
  { height := 1, hash := "h1", previousblockhash := some "h0", time := 10
  , miner := none, difficulty := some "1", flags := none, tx := some []
  , size := some 200, nonce := some "0" }

def gapBlock3 : RpcBlock :=
  { height := 3, hash := "h3", previousblockhash := some "h2", time := 30
  , miner := none, difficulty := some "1"
  , flags := some "proof-of-stake stake-modifier", tx := some []
  , size := some 210, nonce := some "0" }

def gapNode : Node :=
  { getBlockCount := .ok 3
  , getBlock := fun h =>
      if h = 1 then .ok (some gapBlock1)
      else if h = 3 then .ok (some gapBlock3)
      else .ok none
  , getTransactionReceipt := fun _ => .ok none
  , getTokenName := fun _ => .ok "T"
  , getTokenSymbol := fun _ => .ok "T"
  , getTokenDecimals := fun _ => .ok 18
  , getTokenTotalSupply := fun _ => .ok "0" }

/-- Store whose cursor already points at height 0. -/
def gapStore : Store := setLastIndexedBlock emptyStore 0

/-- Holders-endpoint fixture: a mint of 1000 to `aa…aa` followed by a
transfer of 0x10 from `aa…aa` to `bb…bb`. -/
def srvTopicZero : String :=
  "0000000000000000000000000000000000000000000000000000000000000000"

def srvTopicA : String :=
  "000000000000000000000000aaaaaaaaaaaaaaaaaaaaaaaaaaaaaaaaaaaaaaaa"

def srvTopicB : String :=
  "000000000000000000000000bbbbbbbbbbbbbbbbbbbbbbbbbbbbbbbbbbbbbbbb"

def srvMintLog : RpcLog :=
  { address := some "c0ffee"
  , topics := [TRANSFER_TOPIC_SRV, srvTopicZero, srvTopicA]
  , data := some data1000 }

def srvMoveLog : RpcLog :=
  { address := some "c0ffee"
  , topics := [TRANSFER_TOPIC_SRV, srvTopicA, srvTopicB]
  , data := some "10" }

def srvResults : List SearchLogResult :=
  [{ log := some [srvMintLog, srvMoveLog] }]

/-- The referential invariant of C7: every TokenTransfer row references a
Token row present in the same store. -/
def tokenRefInv (s : Store) : Prop :=
  ∀ t ∈ s.tokenTransfers, (getToken s t.tokenAddress).isSome

instance (s : Store) : Decidable (tokenRefInv s) :=
  List.decidableBAll _ s.tokenTransfers

/-! ## Helper lemmas -/

theorem toNat_ofNat_valid (n : Nat) (h : n < 55296) :
    (Char.ofNat n).toNat = n := by
  rw [Char.ofNat, dif_pos (Or.inl h)]
  rfl

theorem toLower_eq (c : Char) :
    c.toLower =
      if c.toNat ≥ 65 ∧ c.toNat ≤ 90 then Char.ofNat (c.toNat + 32)
      else c := rfl

theorem toLower_toLower (c : Char) : c.toLower.toLower = c.toLower := by
  by_cases h : c.toNat ≥ 65 ∧ c.toNat ≤ 90
  · have h1 : c.toLower = Char.ofNat (c.toNat + 32) := by
      rw [toLower_eq, if_pos h]
    have h2 : c.toLower.toNat = c.toNat + 32 := by
      rw [h1]; exact toNat_ofNat_valid _ (by omega)
    rw [toLower_eq c.toLower, if_neg (by omega)]
  · have h1 : c.toLower = c := by rw [toLower_eq, if_neg h]
    rw [h1, h1]

theorem toLowerStr_idem (s : String) :
    toLowerStr (toLowerStr s) = toLowerStr s := by
  simp only [toLowerStr, List.map_map]
  congr 1
  exact List.map_congr_left (fun c _ => toLower_toLower c)

theorem findBy_upsertBy_self {α κ : Type} [DecidableEq κ] (key : α → κ)
    (r : α) (l : List α) : findBy key (key r) (upsertBy key r l) = some r := by
  induction l with
  | nil => simp [upsertBy, findBy]
  | cons x xs ih =>
      by_cases h : key x = key r
      · simp [upsertBy, findBy, h]
      · simp [upsertBy, findBy, h, ih]

theorem findBy_upsertBy_ne {α κ : Type} [DecidableEq κ] (key : α → κ)
    (r : α) (k : κ) (l : List α) (hne : key r ≠ k) :
    findBy key k (upsertBy key r l) = findBy key k l := by
  induction l with
  | nil => simp [upsertBy, findBy, hne]
  | cons x xs ih =>
      by_cases h : key x = key r
      · simp [upsertBy, findBy, h, hne]
      · simp [upsertBy, findBy, h, ih]

theorem upsertBy_upsertBy_same {α κ : Type} [DecidableEq κ] (key : α → κ)
    (r r2 : α) (l : List α) (hk : key r = key r2) :
    upsertBy key r (upsertBy key r2 l) = upsertBy key r l := by
  induction l with
  | nil => simp [upsertBy, hk]
  | cons x xs ih =>
      by_cases h : key x = key r2
      · simp [upsertBy, h, hk.symm, hk ▸ h]
      · have h2 : ¬ key x = key r := fun hc => h (hc.trans hk)
        simp [upsertBy, h, h2, ih]

theorem upsertBy_of_findBy_self {α κ : Type} [DecidableEq κ] (key : α → κ)
    (r : α) (l : List α) (hf : findBy key (key r) l = some r) :
    upsertBy key r l = l := by
  induction l with
  | nil => simp [findBy] at hf
  | cons x xs ih =>
      by_cases h : key x = key r
      · simp [findBy, h] at hf
        simp [upsertBy, h, hf]
      · simp [findBy, h] at hf
        simp [upsertBy, h, ih hf]

theorem findBy_foldl_upsert_ne {α κ : Type} [DecidableEq κ] (key : α → κ)
    (k : κ) (ts : List α) (hk : k ∉ ts.map key) (l : List α) :
    findBy key k (ts.foldl (fun acc t => upsertBy key t acc) l)
      = findBy key k l := by
  induction ts generalizing l with
  | nil => rfl
  | cons t rest ih =>
      simp only [List.map_cons, List.mem_cons] at hk
      push_neg at hk
      simp only [List.foldl_cons]
      rw [ih hk.2, findBy_upsertBy_ne key t k l (fun h => hk.1 h.symm)]

theorem foldl_upsert_idem {α κ : Type} [DecidableEq κ] (key : α → κ)
    (ts : List α) (hnd : (ts.map key).Nodup) (l : List α) :
    ts.foldl (fun acc t => upsertBy key t acc)
        (ts.foldl (fun acc t => upsertBy key t acc) l)
      = ts.foldl (fun acc t => upsertBy key t acc) l := by
  induction ts generalizing l with
  | nil => rfl
  | cons t rest ih =>
      simp only [List.map_cons, List.nodup_cons] at hnd
      simp only [List.foldl_cons]
      have hfix :
          upsertBy key t (rest.foldl (fun acc t => upsertBy key t acc)
              (upsertBy key t l))
            = rest.foldl (fun acc t => upsertBy key t acc)
                (upsertBy key t l) := by
        apply upsertBy_of_findBy_self
        rw [findBy_foldl_upsert_ne key (key t) rest hnd.1]
        exact findBy_upsertBy_self key t l
      rw [hfix, ih hnd.2]

/-! ### Store projection lemmas -/

theorem foldl_insertTxRow_proj (txs : List TxRow) (s : Store) :
    (txs.foldl insertTxRow s).blocks = s.blocks ∧
    (txs.foldl insertTxRow s).eventLogs = s.eventLogs ∧
    (txs.foldl insertTxRow s).tokens = s.tokens ∧
    (txs.foldl insertTxRow s).tokenTransfers = s.tokenTransfers ∧
    (txs.foldl insertTxRow s).indexerState = s.indexerState ∧
    (txs.foldl insertTxRow s).transactions
      = txs.foldl (fun l t => upsertBy TxRow.hash t l) s.transactions := by
  induction txs generalizing s with
  | nil => exact ⟨rfl, rfl, rfl, rfl, rfl, rfl⟩
  | cons t rest ih =>
      simpa [insertTxRow] using ih { s with
        transactions := upsertBy TxRow.hash t s.transactions }

theorem applyOp_indexerState (s : Store) (op : WriteOp) :
    (applyOp s op).indexerState = s.indexerState := by
  cases op with
  | blockUnit b txs =>
      simpa [applyOp, insertBlockRow] using
        (foldl_insertTxRow_proj txs (insertBlockRow s b)).2.2.2.2.1
  | logW r => rfl
  | tokenW a row =>
      by_cases h : (getToken s a).isSome <;> simp [applyOp, h, insertTokenRow]
  | transferW r => rfl

theorem applyOps_indexerState (ops : List WriteOp) (s : Store) :
    (applyOps s ops).indexerState = s.indexerState := by
  induction ops generalizing s with
  | nil => rfl
  | cons op rest ih =>
      simp only [applyOps, List.foldl_cons]
      rw [show (List.foldl applyOp (applyOp s op) rest)
            = applyOps (applyOp s op) rest from rfl,
        ih, applyOp_indexerState]

theorem applyOp_blocks_deferred (s : Store) (op : WriteOp)
    (h : isDeferred op) : (applyOp s op).blocks = s.blocks := by
  cases op with
  | blockUnit b txs => exact absurd h (by simp [isDeferred])
  | logW r => rfl
  | tokenW a row =>
      by_cases hp : (getToken s a).isSome <;>
        simp [applyOp, hp, insertTokenRow]
  | transferW r => rfl

theorem applyOp_transactions_deferred (s : Store) (op : WriteOp)
    (h : isDeferred op) : (applyOp s op).transactions = s.transactions := by
  cases op with
  | blockUnit b txs => exact absurd h (by simp [isDeferred])
  | logW r => rfl
  | tokenW a row =>
      by_cases hp : (getToken s a).isSome <;>
        simp [applyOp, hp, insertTokenRow]
  | transferW r => rfl

theorem applyOps_blocks_deferred (ops : List WriteOp) (s : Store)
    (h : ∀ op ∈ ops, isDeferred op) : (applyOps s ops).blocks = s.blocks := by
  induction ops generalizing s with
  | nil => rfl
  | cons op rest ih =>
      simp only [applyOps, List.foldl_cons]
      rw [show (List.foldl applyOp (applyOp s op) rest)
            = applyOps (applyOp s op) rest from rfl,
        ih _ (fun o ho => h o (List.mem_cons_of_mem _ ho)),
        applyOp_blocks_deferred _ _ (h op (List.mem_cons_self _ _))]

theorem applyOps_transactions_deferred (ops : List WriteOp) (s : Store)
    (h : ∀ op ∈ ops, isDeferred op) :
    (applyOps s ops).transactions = s.transactions := by
  induction ops generalizing s with
  | nil => rfl
  | cons op rest ih =>
      simp only [applyOps, List.foldl_cons]
      rw [show (List.foldl applyOp (applyOp s op) rest)
            = applyOps (applyOp s op) rest from rfl,
        ih _ (fun o ho => h o (List.mem_cons_of_mem _ ho)),
        applyOp_transactions_deferred _ _ (h op (List.mem_cons_self _ _))]

theorem applyOp_eventLogs (s : Store) (op : WriteOp) :
    (applyOp s op).eventLogs = s.eventLogs ++ logRowsOf [op] := by
  cases op with
  | blockUnit b txs =>
      simpa [logRowsOf, insertBlockRow] using
        (foldl_insertTxRow_proj txs (insertBlockRow s b)).2.1
  | logW r => simp [applyOp, insertLogRow, logRowsOf]
  | tokenW a row =>
      by_cases h : (getToken s a).isSome <;>
        simp [applyOp, h, insertTokenRow, logRowsOf]
  | transferW r => simp [applyOp, insertTransferRow, logRowsOf]

theorem logRowsOf_cons (op : WriteOp) (ops : List WriteOp) :
    logRowsOf (op :: ops) = logRowsOf [op] ++ logRowsOf ops := by
  cases op <;> simp [logRowsOf]

theorem transferRowsOf_cons (op : WriteOp) (ops : List WriteOp) :
    transferRowsOf (op :: ops)
      = transferRowsOf [op] ++ transferRowsOf ops := by
  cases op <;> simp [transferRowsOf]

theorem applyOps_eventLogs (ops : List WriteOp) (s : Store) :
    (applyOps s ops).eventLogs = s.eventLogs ++ logRowsOf ops := by
  induction ops generalizing s with
  | nil => simp [applyOps, logRowsOf]
  | cons op rest ih =>
      simp only [applyOps, List.foldl_cons]
      rw [show (List.foldl applyOp (applyOp s op) rest)
            = applyOps (applyOp s op) rest from rfl, ih, applyOp_eventLogs,
        logRowsOf_cons op rest]
      simp [logRowsOf]

theorem applyOp_tokenTransfers (s : Store) (op : WriteOp) :
    (applyOp s op).tokenTransfers
      = s.tokenTransfers ++ transferRowsOf [op] := by
  cases op with
  | blockUnit b txs =>
      simpa [transferRowsOf, insertBlockRow] using
        (foldl_insertTxRow_proj txs (insertBlockRow s b)).2.2.2.1
  | logW r => simp [applyOp, insertLogRow, transferRowsOf]
  | tokenW a row =>
      by_cases h : (getToken s a).isSome <;>
        simp [applyOp, h, insertTokenRow, transferRowsOf]
  | transferW r => simp [applyOp, insertTransferRow, transferRowsOf]

theorem applyOps_tokenTransfers (ops : List WriteOp) (s : Store) :
    (applyOps s ops).tokenTransfers
      = s.tokenTransfers ++ transferRowsOf ops := by
  induction ops generalizing s with
  | nil => simp [applyOps, transferRowsOf]
  | cons op rest ih =>
      simp only [applyOps, List.foldl_cons]
      rw [show (List.foldl applyOp (applyOp s op) rest)
            = applyOps (applyOp s op) rest from rfl, ih,
        applyOp_tokenTransfers, transferRowsOf_cons op rest]
      simp [transferRowsOf]

/-! ### Token-table lemmas -/

theorem getToken_insertTokenRow (s : Store) (row : TokenRow) (a : String) :
    getToken (insertTokenRow s row) a
      = if row.address = a then some row else getToken s a := by
  by_cases h : row.address = a
  · subst h
    simpa [getToken, insertTokenRow] using
      findBy_upsertBy_self TokenRow.address row s.tokens
  · simpa [getToken, insertTokenRow, h] using
      findBy_upsertBy_ne TokenRow.address row a s.tokens h

theorem applyOp_tokens_blockUnit (s : Store) (b : BlockRow)
    (txs : List TxRow) : (applyOp s (.blockUnit b txs)).tokens = s.tokens := by
  simpa [insertBlockRow] using
    (foldl_insertTxRow_proj txs (insertBlockRow s b)).2.2.1

theorem getToken_applyOp_blockUnit (s : Store) (b : BlockRow)
    (txs : List TxRow) (a : String) :
    getToken (applyOp s (.blockUnit b txs)) a = getToken s a := by
  simp [getToken, applyOp_tokens_blockUnit]

theorem getToken_mono_op (s : Store) (op : WriteOp) (a : String)
    (h : (getToken s a).isSome) : (getToken (applyOp s op) a).isSome := by
  cases op with
  | blockUnit b txs => rw [getToken_applyOp_blockUnit]; exact h
  | logW r => exact h
  | tokenW a2 row =>
      by_cases hp : (getToken s a2).isSome
      · simpa [applyOp, hp] using h
      · have he : applyOp s (.tokenW a2 row) = insertTokenRow s row := by
          simp [applyOp, hp]
        rw [he, getToken_insertTokenRow]
        by_cases hx : row.address = a <;> simp [hx, h]
  | transferW r => exact h

theorem getToken_mono_ops (ops : List WriteOp) (s : Store) (a : String)
    (h : (getToken s a).isSome) : (getToken (applyOps s ops) a).isSome := by
  induction ops generalizing s with
  | nil => exact h
  | cons op rest ih =>
      exact ih (applyOp s op) (getToken_mono_op s op a h)

theorem getToken_after_tokenW (s : Store) (a : String) (row : TokenRow)
    (hwf : row.address = a) :
    (getToken (applyOp s (.tokenW a row)) a).isSome := by
  by_cases hp : (getToken s a).isSome
  · simp [applyOp, hp]
  · have he : applyOp s (.tokenW a row) = insertTokenRow s row := by
      simp [applyOp, hp]
    rw [he, getToken_insertTokenRow, if_pos hwf]
    rfl

/-- After applying a well-formed unit list, every token address a `tokenW`
unit targets is present. -/
theorem tokenW_present_after (ops : List WriteOp) (s : Store)
    (hwf : ∀ op ∈ ops, wfOp op) (a : String) (row : TokenRow)
    (hmem : WriteOp.tokenW a row ∈ ops) :
    (getToken (applyOps s ops) a).isSome := by
  induction ops generalizing s with
  | nil => cases hmem
  | cons op rest ih =>
      rcases List.mem_cons.mp hmem with heq | hmem2
      · subst heq
        have hw : wfOp (WriteOp.tokenW a row) :=
          hwf _ (List.mem_cons_self _ _)
        exact getToken_mono_ops rest (applyOp s (.tokenW a row)) a
          (getToken_after_tokenW s a row hw)
      · exact ih (applyOp s op)
          (fun o ho => hwf o (List.mem_cons_of_mem _ ho)) hmem2

/-- If every `tokenW` unit in the list targets an already-present token,
the tokens table is left unchanged. -/
theorem applyOps_tokens_of_present (ops : List WriteOp) (s : Store)
    (h : ∀ a row, WriteOp.tokenW a row ∈ ops → (getToken s a).isSome) :
    (applyOps s ops).tokens = s.tokens := by
  induction ops generalizing s with
  | nil => rfl
  | cons op rest ih =>
      have hstep : (applyOp s op).tokens = s.tokens ∧
          (∀ a : String, getToken (applyOp s op) a = getToken s a) := by
        cases op with
        | blockUnit b txs =>
            exact ⟨applyOp_tokens_blockUnit s b txs,
              fun a => getToken_applyOp_blockUnit s b txs a⟩
        | logW r => exact ⟨rfl, fun a => rfl⟩
        | tokenW a2 row =>
            have hp : (getToken s a2).isSome :=
              h a2 row (List.mem_cons_self _ _)
            simp [applyOp, hp]
        | transferW r => exact ⟨rfl, fun a => rfl⟩
      have : applyOps (applyOp s op) rest = applyOps s (op :: rest) := rfl
      rw [show applyOps s (op :: rest)
            = applyOps (applyOp s op) rest from rfl]
      rw [ih (applyOp s op)
        (fun a row hm => by
          rw [hstep.2 a]
          exact h a row (List.mem_cons_of_mem _ hm)), hstep.1]

/-! ### Structure of the generated unit lists -/

/-- Both receipt-path invariants at once: every generated unit is a
deferred (non-`blockUnit`) unit and is well formed. -/
theorem indexLogOps_good (node : Node) (txid : String) (log : RpcLog)
    (blk : RpcBlock) (i : Nat) :
    ∀ op ∈ (indexLogOps node txid log blk i).1, isDeferred op ∧ wfOp op := by
  intro op hop
  unfold indexLogOps at hop
  by_cases hc : log.topics[0]? = some TRANSFER_TOPIC ∧ 3 ≤ log.topics.length
  · rw [if_pos hc] at hop
    cases ha : log.address with
    | none =>
        rw [ha] at hop
        simp only [List.mem_singleton] at hop
        subst hop
        exact ⟨trivial, trivial⟩
    | some a =>
        rw [ha] at hop
        simp only [List.mem_cons, List.mem_singleton] at hop
        rcases hop with h | h | h | h
        · subst h; exact ⟨trivial, trivial⟩
        · subst h; exact ⟨trivial, rfl⟩
        · subst h; exact ⟨trivial, trivial⟩
        · cases h
  · rw [if_neg hc] at hop
    simp only [List.mem_singleton] at hop
    subst hop
    exact ⟨trivial, trivial⟩

theorem indexLogsOps_good (node : Node) (txid : String) (blk : RpcBlock) :
    ∀ (i : Nat) (logs : List RpcLog),
      ∀ op ∈ (indexLogsOps node txid blk i logs).1,
        isDeferred op ∧ wfOp op := by
  intro i logs
  induction logs generalizing i with
  | nil => intro op hop; cases hop
  | cons lg rest ih =>
      intro op hop
      simp only [indexLogsOps] at hop
      by_cases hok : (indexLogOps node txid lg blk i).2
      · rw [if_pos hok] at hop
        rcases List.mem_append.mp hop with h | h
        · exact indexLogOps_good node txid lg blk i op h
        · exact ih (i + 1) op h
      · rw [if_neg hok] at hop
        exact indexLogOps_good node txid lg blk i op hop

theorem indexReceiptEntryOps_good (node : Node) (txid : String)
    (blk : RpcBlock) (receipt : RpcReceipt) :
    ∀ op ∈ (indexReceiptEntryOps node txid blk receipt).1,
      isDeferred op ∧ wfOp op := by
  intro op hop
  cases hl : receipt.log with
  | none =>
      simp only [indexReceiptEntryOps, hl] at hop
      cases hca : receipt.contractAddress with
      | none => rw [hca] at hop; cases hop
      | some ca =>
          rw [hca] at hop
          rw [if_pos trivial] at hop
          simp only [List.nil_append, List.mem_singleton] at hop
          subst hop
          exact ⟨trivial, rfl⟩
  | some logs =>
      simp only [indexReceiptEntryOps, hl] at hop
      rcases hE : indexLogsOps node txid blk 0 logs with ⟨logOps, ok⟩
      rw [hE] at hop
      have hlog : ∀ o ∈ logOps, isDeferred o ∧ wfOp o := by
        intro o ho
        exact indexLogsOps_good node txid blk 0 logs o (by rw [hE]; exact ho)
      cases ok with
      | false =>
          rw [if_neg (by simp)] at hop
          exact hlog op hop
      | true =>
          rw [if_pos rfl] at hop
          cases hca : receipt.contractAddress with
          | none => rw [hca] at hop; exact hlog op hop
          | some ca =>
              rw [hca] at hop
              rcases List.mem_append.mp hop with h | h
              · exact hlog op h
              · simp only [List.mem_singleton] at h
                subst h
                exact ⟨trivial, rfl⟩

theorem indexReceiptsOps_good (node : Node) (txid : String)
    (blk : RpcBlock) :
    ∀ receipts : List RpcReceipt,
      ∀ op ∈ (indexReceiptsOps node txid blk receipts).1,
        isDeferred op ∧ wfOp op := by
  intro receipts
  induction receipts with
  | nil => intro op hop; cases hop
  | cons r rest ih =>
      intro op hop
      simp only [indexReceiptsOps] at hop
      by_cases hok : (indexReceiptEntryOps node txid blk r).2
      · rw [if_pos hok] at hop
        rcases List.mem_append.mp hop with h | h
        · exact indexReceiptEntryOps_good node txid blk r op h
        · exact ih op h
      · rw [if_neg hok] at hop
        exact indexReceiptEntryOps_good node txid blk r op hop

theorem indexReceiptOps_good (node : Node) (txid : String) (blk : RpcBlock) :
    ∀ op ∈ indexReceiptOps node txid blk, isDeferred op ∧ wfOp op := by
  intro op hop
  unfold indexReceiptOps at hop
  cases hres : node.getTransactionReceipt txid with
  | error e => rw [hres] at hop; cases hop
  | ok o =>
      cases o with
      | none => rw [hres] at hop; cases hop
      | some receipts =>
          rw [hres] at hop
          exact indexReceiptsOps_good node txid blk receipts op hop

theorem foldl_append_eq {α β : Type} (f : α → List β) (a0 : List β)
    (ts : List α) :
    ts.foldl (fun acc t => acc ++ f t) a0 = a0 ++ (ts.map f).flatten := by
  induction ts generalizing a0 with
  | nil => simp
  | cons t rest ih =>
      simp only [List.foldl_cons, List.map_cons, List.flatten_cons, ih,
        List.append_assoc]

theorem blockReceiptOps_good (node : Node) (b : RpcBlock) :
    ∀ op ∈ blockReceiptOps node b, isDeferred op ∧ wfOp op := by
  intro op hop
  unfold blockReceiptOps at hop
  rw [foldl_append_eq] at hop
  simp only [List.nil_append, List.mem_flatten, List.mem_map] at hop
  rcases hop with ⟨l, ⟨tx, _, rfl⟩, hin⟩
  exact indexReceiptOps_good node tx.txid b op hin

/-! ### `indexBlock` decomposition -/

theorem applyOps_cons (s : Store) (op : WriteOp) (ops : List WriteOp) :
    applyOps s (op :: ops) = applyOps (applyOp s op) ops := rfl

theorem applyOp_blocks_blockUnit (s : Store) (b : BlockRow)
    (txs : List TxRow) :
    (applyOp s (.blockUnit b txs)).blocks
      = upsertBy BlockRow.height b s.blocks := by
  simpa [insertBlockRow] using
    (foldl_insertTxRow_proj txs (insertBlockRow s b)).1

theorem applyOp_transactions_blockUnit (s : Store) (b : BlockRow)
    (txs : List TxRow) :
    (applyOp s (.blockUnit b txs)).transactions
      = txs.foldl (fun l t => upsertBy TxRow.hash t l) s.transactions := by
  simpa [insertBlockRow] using
    (foldl_insertTxRow_proj txs (insertBlockRow s b)).2.2.2.2.2

theorem indexBlock_found (node : Node) (s : Store) (h : Int) (b : RpcBlock)
    (hb : node.getBlock h = .ok (some b)) :
    indexBlock node s h
      = .ok (applyOps s
          (.blockUnit (blockRowOf h b) (buildTxRows b 0 (b.tx.getD []))
            :: blockReceiptOps node b)) := by
  simp [indexBlock, indexBlockOps, hb, Except.map]

theorem indexBlock_notFound (node : Node) (s : Store) (h : Int)
    (hb : node.getBlock h = .ok none) : indexBlock node s h = .ok s := by
  simp [indexBlock, indexBlockOps, hb, applyOps, Except.map]

theorem indexBlock_indexerState (node : Node) (s s2 : Store) (h : Int)
    (hr : indexBlock node s h = .ok s2) :
    s2.indexerState = s.indexerState := by
  unfold indexBlock at hr
  cases hb : indexBlockOps node h with
  | error e => rw [hb] at hr; cases hr
  | ok ops =>
      rw [hb] at hr
      cases hr
      exact applyOps_indexerState ops s

theorem buildTxRows_map_hash (b : RpcBlock) :
    ∀ (i : Nat) (txs : List RpcTx),
      (buildTxRows b i txs).map TxRow.hash = txs.map RpcTx.txid := by
  intro i txs
  induction txs generalizing i with
  | nil => rfl
  | cons t rest ih =>
      simp only [buildTxRows, List.map_cons, ih]
      rfl

/-! ## C1 -/

/-- C1 (amended): re-indexing the same height H twice leaves identical
Block, Transaction and Token rows (`INSERT OR REPLACE` keyed upserts and
the `detectToken` existence check make those writes idempotent), but the
plain `INSERT` statements for `event_logs` and `token_transfers` append
the block's rows a second time, so the re-run is not a no-op: duplicate
EventLog and TokenTransfer rows with the same (tx hash, log index) are
created.  The transaction-hash Nodup hypothesis states that the block
body lists pairwise-distinct txids. -/
theorem C1_reindex_effect (node : Node) (s s1 s2 : Store) (h : Int)
    (hrun1 : indexBlock node s h = .ok s1)
    (hrun2 : indexBlock node s1 h = .ok s2)
    (hnd : ∀ b, node.getBlock h = .ok (some b) →
      ((b.tx.getD []).map RpcTx.txid).Nodup) :
    s2.blocks = s1.blocks ∧ s2.transactions = s1.transactions ∧
    s2.tokens = s1.tokens ∧ s2.indexerState = s1.indexerState ∧
    s2.eventLogs = s1.eventLogs ++ s1.eventLogs.drop s.eventLogs.length ∧
    s2.tokenTransfers
      = s1.tokenTransfers
          ++ s1.tokenTransfers.drop s.tokenTransfers.length := by
  cases hb : node.getBlock h with
  | error e =>
      rw [indexBlock, indexBlockOps, hb] at hrun1
      cases hrun1
  | ok ob =>
      cases ob with
      | none =>
          rw [indexBlock_notFound node s h hb] at hrun1
          injection hrun1 with h1
          subst h1
          rw [indexBlock_notFound node s h hb] at hrun2
          injection hrun2 with h2
          subst h2
          simp [List.drop_length]
      | some b =>
          rw [indexBlock_found node s h b hb] at hrun1
          rw [indexBlock_found node s1 h b hb] at hrun2
          injection hrun1 with h1
          injection hrun2 with h2
          subst h1
          subst h2
          have hgood := blockReceiptOps_good node b
          have hdef : ∀ op ∈ blockReceiptOps node b, isDeferred op :=
            fun o ho => (hgood o ho).1
          have hwfall :
              ∀ op ∈ (WriteOp.blockUnit (blockRowOf h b)
                  (buildTxRows b 0 (b.tx.getD []))
                  :: blockReceiptOps node b), wfOp op := by
            intro op hop
            rcases List.mem_cons.mp hop with heq | hm
            · subst heq; trivial
            · exact (hgood op hm).2
          set br := blockRowOf h b with hbr
          set txrows := buildTxRows b 0 (b.tx.getD []) with htxr
          set rest := blockReceiptOps node b with hrest
          set ops := WriteOp.blockUnit br txrows :: rest with hops
          set s1 := applyOps s ops with hs1
          have hs1b : s1.blocks = upsertBy BlockRow.height br s.blocks := by
            rw [hs1, hops, applyOps_cons, applyOps_blocks_deferred rest _ hdef,
              applyOp_blocks_blockUnit]
          have hs2b : (applyOps s1 ops).blocks
              = upsertBy BlockRow.height br s1.blocks := by
            rw [hops, applyOps_cons, applyOps_blocks_deferred rest _ hdef,
              applyOp_blocks_blockUnit]
          have hs1t : s1.transactions
              = txrows.foldl (fun l t => upsertBy TxRow.hash t l)
                  s.transactions := by
            rw [hs1, hops, applyOps_cons,
              applyOps_transactions_deferred rest _ hdef,
              applyOp_transactions_blockUnit]
          have hs2t : (applyOps s1 ops).transactions
              = txrows.foldl (fun l t => upsertBy TxRow.hash t l)
                  s1.transactions := by
            rw [hops, applyOps_cons,
              applyOps_transactions_deferred rest _ hdef,
              applyOp_transactions_blockUnit]
          have hndtx : (txrows.map TxRow.hash).Nodup := by
            rw [htxr, buildTxRows_map_hash]
            exact hnd b hb
          refine ⟨?_, ?_, ?_, ?_, ?_, ?_⟩
          · rw [hs2b, hs1b,
              upsertBy_upsertBy_same BlockRow.height br br s.blocks rfl]
          · rw [hs2t, hs1t, foldl_upsert_idem TxRow.hash txrows hndtx]
          · exact applyOps_tokens_of_present ops s1
              (fun a row hm =>
                tokenW_present_after ops s hwfall a row hm)
          · exact applyOps_indexerState ops s1
          · rw [applyOps_eventLogs ops s1, hs1, applyOps_eventLogs ops s,
              List.drop_left]
          · rw [applyOps_tokenTransfers ops s1, hs1,
              applyOps_tokenTransfers ops s, List.drop_left]

/-- C1, counterexample to the claim as stated: after indexing height 0
twice on `exNode`, the Block and Transaction rows are identical, but the
EventLog and TokenTransfer tables hold two rows with the same
(tx hash, log index) — the first run had no such duplicates — and the
store differs from the once-indexed store, so the re-run is not a no-op. -/
theorem C1_counterexample :
    exStore2.blocks = exStore1.blocks ∧
    exStore2.transactions = exStore1.transactions ∧
    (exStore1.eventLogs.map (fun r => (r.txHash, r.logIndex))).Nodup ∧
    ¬ (exStore2.eventLogs.map (fun r => (r.txHash, r.logIndex))).Nodup ∧
    ¬ (exStore2.tokenTransfers.map
        (fun r => (r.txHash, r.logIndex))).Nodup ∧
    exStore2 ≠ exStore1 := by
  decide

/-- C1 witness: the amended theorem applied at the concrete fixture. -/
theorem C1_reindex_effect_witness :
    exStore2.blocks = exStore1.blocks ∧
    exStore2.transactions = exStore1.transactions ∧
    exStore2.tokens = exStore1.tokens ∧
    exStore2.indexerState = exStore1.indexerState ∧
    exStore2.eventLogs
      = exStore1.eventLogs
          ++ exStore1.eventLogs.drop emptyStore.eventLogs.length ∧
    exStore2.tokenTransfers
      = exStore1.tokenTransfers
          ++ exStore1.tokenTransfers.drop
              emptyStore.tokenTransfers.length :=
  C1_reindex_effect exNode emptyStore exStore1 exStore2 0 rfl rfl
    (by
      intro b hb
      injection hb with hb1
      injection hb1 with hb2
      subst hb2
      decide)

/-! ## C2 -/

/-- C2 (amended): for a log whose `topic0` is the Transfer signature, with
at least 3 topics and an emitting address, `indexLog` persists exactly one
TokenTransfer row whose `from`/`to` are `'0x'` plus the lower-cased last
40 hex characters of topics[1]/topics[2]; its `value`, however, is the
log's raw `data` field exactly as reported (the decimal rendering is only
produced at read time by `decodeUint256` in the API layer, not at
persistence time). -/
theorem C2_transfer_decode (node : Node) (txid : String) (log : RpcLog)
    (blk : RpcBlock) (i : Nat) (a : String) (s : Store)
    (htopic : log.topics[0]? = some TRANSFER_TOPIC)
    (hlen : 3 ≤ log.topics.length)
    (haddr : log.address = some a) :
    (applyOps s (indexLogOps node txid log blk i).1).tokenTransfers
      = s.tokenTransfers ++
        [{ txHash := txid
         , logIndex := i
         , tokenAddress := toLowerStr a
         , fromAddress :=
             "0x" ++ toLowerStr (sliceLast 40 (log.topics.getD 1 ""))
         , toAddress :=
             "0x" ++ toLowerStr (sliceLast 40 (log.topics.getD 2 ""))
         , value := log.data
         , blockHeight := blk.height
         , timestamp := blk.time }] := by
  rw [applyOps_tokenTransfers]
  congr 1
  unfold indexLogOps
  rw [if_pos ⟨htopic, hlen⟩, haddr]
  simp [transferRowsOf, detectTokenOp]

set_option maxRecDepth 8192 in
/-- C2, counterexample to the claim as stated: on the spec's own scenario
(topics encoding `aa…aa`/`bb…bb`, data the 32-byte encoding of 1000) the
persisted TokenTransfer's `value` is the raw 64-character hex data, not
the base-10 string `"1000"` that the claim requires (which is what
`decodeUint256` would have produced). -/
theorem C2_counterexample :
    (applyOps emptyStore
        (indexLogOps exNode "t0" exTransferLog exBlock 0).1).tokenTransfers.map
        TransferRow.value = [some data1000] ∧
    hexToNat data1000 = 1000 ∧
    decodeUint256 (some data1000) = "1000" ∧
    data1000 ≠ "1000" ∧
    (∀ r ∈ (applyOps emptyStore
        (indexLogOps exNode "t0" exTransferLog exBlock 0).1).tokenTransfers,
      r.value ≠ some "1000" ∧
      r.fromAddress = "0xaaaaaaaaaaaaaaaaaaaaaaaaaaaaaaaaaaaaaaaa" ∧
      r.toAddress = "0xbbbbbbbbbbbbbbbbbbbbbbbbbbbbbbbbbbbbbbbb") := by
  decide

/-- C2 witness: the amended theorem applied at the concrete fixture. -/
theorem C2_transfer_decode_witness :
    (applyOps emptyStore
        (indexLogOps exNode "t9" exTransferLog exBlock 4).1).tokenTransfers
      = emptyStore.tokenTransfers ++
        [{ txHash := "t9"
         , logIndex := 4
         , tokenAddress := toLowerStr "0xToKenAddr"
         , fromAddress :=
             "0x" ++ toLowerStr (sliceLast 40 (exTransferLog.topics.getD 1 ""))
         , toAddress :=
             "0x" ++ toLowerStr (sliceLast 40 (exTransferLog.topics.getD 2 ""))
         , value := exTransferLog.data
         , blockHeight := exBlock.height
         , timestamp := exBlock.time }] :=
  C2_transfer_decode exNode "t9" exTransferLog exBlock 4 "0xToKenAddr"
    emptyStore rfl (by decide) rfl

/-! ## C3 -/

set_option maxRecDepth 8192 in
/-- C3: the block write is not one atomic unit.  Only the Block row and
its Transaction rows share the explicit `db.transaction`; the EventLog,
Token and TokenTransfer writes are issued by the fire-and-forget async
receipt path after that transaction commits, each auto-committing on its
own.  Concretely, `indexBlock exNode _ 0` consists of 4 write units, and
stopping after the first one exposes a state in which the block header
and its transaction are visible while the block's event log, token and
token transfer are all absent — a third state distinct from both
"nothing" and "everything", contradicting the all-or-nothing claim. -/
theorem C3_partial_commit_observable :
    exOps.length = 4 ∧
    (getBlockRow exPartialStore 0).isSome ∧
    exPartialStore.transactions ≠ [] ∧
    exPartialStore.eventLogs = [] ∧
    exPartialStore.tokens = [] ∧
    exPartialStore.tokenTransfers = [] ∧
    (applyOps emptyStore exOps).eventLogs ≠ [] ∧
    (applyOps emptyStore exOps).tokenTransfers ≠ [] ∧
    exPartialStore ≠ emptyStore ∧
    exPartialStore ≠ applyOps emptyStore exOps := by
  decide

/-! ## C4 -/

/-- C4: evaluation of `formatTokenAmount` on the spec's test vectors.  The
first two families hold, but for `decimals = 0` the JS expressions
`str.slice(0, -decimals)` and `str.slice(-decimals)` degenerate
(`-0 === 0`), so `formatTokenAmount("100", 0)` returns `"0.1"` instead of
the claimed `"100"`: the whole part collapses to `"0"` and the entire
digit string is treated as the fraction. -/
theorem C4_formatTokenAmount_eval :
    formatTokenAmount "1500000000000000000" 18 = "1.5" ∧
    formatTokenAmount "0" 0 = "0" ∧
    formatTokenAmount "0" 8 = "0" ∧
    formatTokenAmount "0" 18 = "0" ∧
    formatTokenAmount "5" 2 = "0.05" ∧
    formatTokenAmount "100" 0 = "0.1" ∧
    formatTokenAmount "100" 0 ≠ "100" := by
  decide

/-! ## C5 -/

theorem getLastIndexedBlock_set (s : Store) (e : Int) :
    getLastIndexedBlock (setLastIndexedBlock s e) = e := by
  unfold getLastIndexedBlock setLastIndexedBlock getIndexerState
    setIndexerState
  rw [show ("last_block" : String)
        = Prod.fst (("last_block", e) : String × Int) from rfl,
    findBy_upsertBy_self Prod.fst ("last_block", e) s.indexerState]
  rfl

theorem getLastIndexedBlock_congr (s s2 : Store)
    (h : s2.indexerState = s.indexerState) :
    getLastIndexedBlock s2 = getLastIndexedBlock s := by
  unfold getLastIndexedBlock getIndexerState
  rw [h]

theorem runBatch_trace_complete (node : Node) (hs : List Int) (s : Store)
    (hok : (runBatch node s hs).2.2 = true) :
    (runBatch node s hs).2.1 = hs := by
  induction hs generalizing s with
  | nil => rfl
  | cons hgt rest ih =>
      unfold runBatch at hok ⊢
      cases hr : indexBlock node s hgt with
      | ok s2 =>
          rw [hr] at hok
          simp only [List.cons.injEq, true_and]
          exact ih s2 hok
      | error e => rw [hr] at hok; cases hok

theorem runBatch_trace_take (node : Node) (hs : List Int) (s : Store) :
    ∃ k, (runBatch node s hs).2.1 = hs.take k := by
  induction hs generalizing s with
  | nil => exact ⟨0, rfl⟩
  | cons hgt rest ih =>
      unfold runBatch
      cases hr : indexBlock node s hgt with
      | ok s2 =>
          obtain ⟨k, hk⟩ := ih s2
          exact ⟨k + 1, by simp [hk]⟩
      | error e => exact ⟨1, by simp⟩

theorem runBatch_indexerState (node : Node) (hs : List Int) (s : Store) :
    (runBatch node s hs).1.indexerState = s.indexerState := by
  induction hs generalizing s with
  | nil => rfl
  | cons hgt rest ih =>
      unfold runBatch
      cases hr : indexBlock node s hgt with
      | ok s2 =>
          simp only []
          rw [ih s2, indexBlock_indexerState node s s2 hgt hr]
      | error e => rfl

/-- C5: one sync iteration with cursor `c` and chain height `hgt > c`
processes exactly the batch `[c+1, min(c+batchSize, hgt)]` in ascending
order; the attempted heights are always a prefix of that list, the whole
list when every height succeeds — in which case the stored cursor becomes
the batch end — and when any height throws, the cursor is left at `c`. -/
theorem C5_sync_batch (node : Node) (s : Store) (c hgt : Int)
    (hc : getLastIndexedBlock s = c)
    (hh : node.getBlockCount = .ok hgt)
    (hlt : c < hgt) :
    let e := min (c + 1 + (batchSize : Int) - 1) hgt
    let r := runBatch node s (heightsFromTo (c + 1) e)
    syncStep node s
      = (if r.2.2 then setLastIndexedBlock r.1 e else r.1, r.2.1) ∧
    (∃ k, r.2.1 = (heightsFromTo (c + 1) e).take k) ∧
    (r.2.2 = true →
      r.2.1 = heightsFromTo (c + 1) e ∧
      getLastIndexedBlock (syncStep node s).1 = e) ∧
    (r.2.2 = false → getLastIndexedBlock (syncStep node s).1 = c) := by
  have hmain : syncStep node s
      = (if (runBatch node s (heightsFromTo (c + 1)
              (min (c + 1 + (batchSize : Int) - 1) hgt))).2.2
         then setLastIndexedBlock
            (runBatch node s (heightsFromTo (c + 1)
              (min (c + 1 + (batchSize : Int) - 1) hgt))).1
            (min (c + 1 + (batchSize : Int) - 1) hgt)
         else (runBatch node s (heightsFromTo (c + 1)
              (min (c + 1 + (batchSize : Int) - 1) hgt))).1,
         (runBatch node s (heightsFromTo (c + 1)
            (min (c + 1 + (batchSize : Int) - 1) hgt))).2.1) := by
    unfold syncStep
    rw [hh]
    simp only [hc, not_le.mpr hlt, if_false]
    by_cases hok : (runBatch node s (heightsFromTo (c + 1)
        (min (c + 1 + (batchSize : Int) - 1) hgt))).2.2
    · simp [hok]
    · simp [hok]
  refine ⟨hmain, runBatch_trace_take node _ s, ?_, ?_⟩
  · intro hok
    refine ⟨runBatch_trace_complete node _ s hok, ?_⟩
    rw [hmain]
    simp only [hok, if_true]
    exact getLastIndexedBlock_set _ _
  · intro hok
    rw [hmain]
    simp only [hok, Bool.false_eq_true, if_false]
    rw [getLastIndexedBlock_congr _ _ (runBatch_indexerState node _ s)]
    exact hc

/-- C5 witness: on `exNode` (chain height 0) starting from the fresh
store (cursor −1), the batch is `[0]`, it succeeds, and the cursor
advances to 0. -/
theorem C5_sync_batch_witness :
    (runBatch exNode emptyStore
        (heightsFromTo (-1 + 1) (min (-1 + 1 + (batchSize : Int) - 1) 0))).2.2
        = true ∧
    getLastIndexedBlock (syncStep exNode emptyStore).1
      = min (-1 + 1 + (batchSize : Int) - 1) 0 := by
  have h := C5_sync_batch exNode emptyStore (-1) 0 (by decide) rfl (by decide)
  have hok : (runBatch exNode emptyStore
      (heightsFromTo (-1 + 1) (min (-1 + 1 + (batchSize : Int) - 1) 0))).2.2
      = true := by decide
  exact ⟨hok, (h.2.2.1 hok).2⟩

/-! ## C6 -/

theorem heightsFromTo_three (lo : Int) :
    heightsFromTo lo (lo + 2) = [lo, lo + 1, lo + 2] := by
  unfold heightsFromTo
  rw [show (lo + 2 + 1 - lo).toNat = 3 by omega]
  show [lo + ((0 : Nat) : Int), lo + ((1 : Nat) : Int),
      lo + ((2 : Nat) : Int)] = [lo, lo + 1, lo + 2]
  norm_num

theorem setLastIndexedBlock_blocks (s : Store) (e : Int) :
    (setLastIndexedBlock s e).blocks = s.blocks := rfl

/-- C6: when the node reports not-found for height H inside the batch
[H−1, H+1], `indexBlock H` writes nothing and does not raise, the two
neighbouring heights are still fully indexed (their block rows are
present), the batch counts as successful, and the cursor advances past H
to H+1. -/
theorem C6_gap_tolerance (node : Node) (s : Store) (H : Int)
    (b1 b2 : RpcBlock)
    (hc : getLastIndexedBlock s = H - 2)
    (hh : node.getBlockCount = .ok (H + 1))
    (h1 : node.getBlock (H - 1) = .ok (some b1))
    (h0 : node.getBlock H = .ok none)
    (h2 : node.getBlock (H + 1) = .ok (some b2)) :
    (∀ s2 : Store, indexBlock node s2 H = .ok s2) ∧
    (syncStep node s).2 = [H - 1, H, H + 1] ∧
    getLastIndexedBlock (syncStep node s).1 = H + 1 ∧
    getBlockRow (syncStep node s).1 (H - 1)
      = some (blockRowOf (H - 1) b1) ∧
    getBlockRow (syncStep node s).1 (H + 1)
      = some (blockRowOf (H + 1) b2) := by
  have hB : ∀ s2 : Store, indexBlock node s2 H = .ok s2 :=
    fun s2 => indexBlock_notFound node s2 H h0
  set ops1 := WriteOp.blockUnit (blockRowOf (H - 1) b1)
      (buildTxRows b1 0 (b1.tx.getD []))
      :: blockReceiptOps node b1 with hops1
  set ops2 := WriteOp.blockUnit (blockRowOf (H + 1) b2)
      (buildTxRows b2 0 (b2.tx.getD []))
      :: blockReceiptOps node b2 with hops2
  have hA : ∀ s2 : Store, indexBlock node s2 (H - 1)
      = .ok (applyOps s2 ops1) :=
    fun s2 => indexBlock_found node s2 (H - 1) b1 h1
  have hC : ∀ s2 : Store, indexBlock node s2 (H + 1)
      = .ok (applyOps s2 ops2) :=
    fun s2 => indexBlock_found node s2 (H + 1) b2 h2
  have hrb : runBatch node s [H - 1, H, H + 1]
      = (applyOps (applyOps s ops1) ops2, [H - 1, H, H + 1], true) := by
    simp only [runBatch, hA, hB, hC]
  have hsync : syncStep node s
      = (setLastIndexedBlock (applyOps (applyOps s ops1) ops2) (H + 1),
         [H - 1, H, H + 1]) := by
    unfold syncStep
    rw [hh]
    simp only [hc]
    rw [if_neg (by omega)]
    rw [show min (H - 2 + 1 + (batchSize : Int) - 1) (H + 1) = H + 1 by
      simp only [batchSize]
      omega]
    rw [show H - 2 + 1 = H - 1 by ring,
      show (H + 1) = (H - 1) + 2 by ring, heightsFromTo_three,
      show (H - 1) + 1 = H by ring, show (H - 1) + 2 = H + 1 by ring, hrb]
    rfl
  have hblocks1 : (applyOps s ops1).blocks
      = upsertBy BlockRow.height (blockRowOf (H - 1) b1) s.blocks := by
    rw [hops1, applyOps_cons,
      applyOps_blocks_deferred _ _
        (fun o ho => (blockReceiptOps_good node b1 o ho).1),
      applyOp_blocks_blockUnit]
  have hblocks2 : (applyOps (applyOps s ops1) ops2).blocks
      = upsertBy BlockRow.height (blockRowOf (H + 1) b2)
          (applyOps s ops1).blocks := by
    rw [hops2, applyOps_cons,
      applyOps_blocks_deferred _ _
        (fun o ho => (blockReceiptOps_good node b2 o ho).1),
      applyOp_blocks_blockUnit]
  refine ⟨hB, by rw [hsync], ?_, ?_, ?_⟩
  · rw [hsync]
    exact getLastIndexedBlock_set _ _
  · rw [hsync]
    show getBlockRow (setLastIndexedBlock
        (applyOps (applyOps s ops1) ops2) (H + 1)) (H - 1)
      = some (blockRowOf (H - 1) b1)
    unfold getBlockRow
    rw [setLastIndexedBlock_blocks, hblocks2,
      findBy_upsertBy_ne BlockRow.height _ _ _
        (by show (H : Int) + 1 ≠ H - 1; omega),
      hblocks1]
    exact findBy_upsertBy_self BlockRow.height (blockRowOf (H - 1) b1)
      s.blocks
  · rw [hsync]
    unfold getBlockRow
    rw [setLastIndexedBlock_blocks, hblocks2]
    exact findBy_upsertBy_self BlockRow.height (blockRowOf (H + 1) b2)
      (applyOps s ops1).blocks

/-- C6 witness: on `gapNode` (blocks at heights 1 and 3, not-found at 2)
with the cursor at 0, heights 1 and 3 are indexed, the batch succeeds and
the cursor advances to 3. -/
theorem C6_gap_tolerance_witness :
    (∀ s2 : Store, indexBlock gapNode s2 2 = .ok s2) ∧
    (syncStep gapNode gapStore).2 = [2 - 1, 2, 2 + 1] ∧
    getLastIndexedBlock (syncStep gapNode gapStore).1 = 2 + 1 ∧
    getBlockRow (syncStep gapNode gapStore).1 (2 - 1)
      = some (blockRowOf (2 - 1) gapBlock1) ∧
    getBlockRow (syncStep gapNode gapStore).1 (2 + 1)
      = some (blockRowOf (2 + 1) gapBlock3) :=
  C6_gap_tolerance gapNode gapStore 2 gapBlock1 gapBlock3 (by decide) rfl
    rfl rfl rfl

/-! ## C7 -/

theorem applyOps_append (s : Store) (xs ys : List WriteOp) :
    applyOps s (xs ++ ys) = applyOps (applyOps s xs) ys := by
  unfold applyOps
  exact List.foldl_append applyOp s xs ys

theorem inv_applyOp_noNewTransfer (s : Store) (op : WriteOp)
    (hrows : transferRowsOf [op] = []) (hinv : tokenRefInv s) :
    tokenRefInv (applyOp s op) := by
  intro t ht
  rw [applyOp_tokenTransfers] at ht
  rw [hrows, List.append_nil] at ht
  exact getToken_mono_op s op t.tokenAddress (hinv t ht)

/-- The Transfer branch of `indexLog`: insert the log row, detect the
token, insert the transfer row referencing it. -/
theorem inv_log_token_transfer (s : Store) (R : LogRow) (node : Node)
    (addr : String) (T : TransferRow) (hinv : tokenRefInv s)
    (hT : T.tokenAddress = toLowerStr addr) :
    tokenRefInv
      (applyOps s [.logW R, detectTokenOp node addr, .transferW T]) := by
  set s1 := applyOp s (.logW R) with hs1
  have hinv1 : tokenRefInv s1 :=
    inv_applyOp_noNewTransfer s (.logW R) rfl hinv
  set s2 := applyOp s1 (detectTokenOp node addr) with hs2
  have hinv2 : tokenRefInv s2 :=
    inv_applyOp_noNewTransfer s1 (detectTokenOp node addr) rfl hinv1
  have hpres : (getToken s2 (toLowerStr addr)).isSome := by
    rw [hs2]
    exact getToken_after_tokenW s1 (toLowerStr addr)
      (detectTokenRow node addr) rfl
  show tokenRefInv (applyOp s2 (.transferW T))
  intro t ht
  have hts : (applyOp s2 (.transferW T)).tokenTransfers
      = s2.tokenTransfers ++ [T] := rfl
  rw [hts] at ht
  have hg : getToken (applyOp s2 (.transferW T)) t.tokenAddress
      = getToken s2 t.tokenAddress := rfl
  rw [hg]
  rcases List.mem_append.mp ht with hmem | hmem
  · exact hinv2 t hmem
  · rw [List.mem_singleton] at hmem
    subst hmem
    rw [hT]
    exact hpres

theorem inv_single_logW (s : Store) (R : LogRow) (hinv : tokenRefInv s) :
    tokenRefInv (applyOps s [WriteOp.logW R]) :=
  inv_applyOp_noNewTransfer s (.logW R) rfl hinv

theorem inv_indexLogOps (node : Node) (txid : String) (log : RpcLog)
    (blk : RpcBlock) (i : Nat) (s : Store) (hinv : tokenRefInv s) :
    tokenRefInv (applyOps s (indexLogOps node txid log blk i).1) := by
  unfold indexLogOps
  by_cases hc : log.topics[0]? = some TRANSFER_TOPIC ∧ 3 ≤ log.topics.length
  · rw [if_pos hc]
    cases ha : log.address with
    | none =>
        exact inv_single_logW s _ hinv
    | some a =>
        exact inv_log_token_transfer s _ node (toLowerStr a) _ hinv
          (toLowerStr_idem a).symm
  · rw [if_neg hc]
    exact inv_single_logW s _ hinv

theorem inv_indexLogsOps (node : Node) (txid : String) (blk : RpcBlock) :
    ∀ (i : Nat) (logs : List RpcLog) (s : Store), tokenRefInv s →
      tokenRefInv (applyOps s (indexLogsOps node txid blk i logs).1) := by
  intro i logs
  induction logs generalizing i with
  | nil => intro s hinv; exact hinv
  | cons lg rest ih =>
      intro s hinv
      unfold indexLogsOps
      rcases hE : indexLogOps node txid lg blk i with ⟨ops1, ok⟩
      have h1 : tokenRefInv (applyOps s ops1) := by
        have h2 := inv_indexLogOps node txid lg blk i s hinv
        rw [hE] at h2
        exact h2
      cases ok with
      | true =>
          show tokenRefInv (applyOps s
            (ops1 ++ (indexLogsOps node txid blk (i + 1) rest).1))
          rw [applyOps_append]
          exact ih (i + 1) _ h1
      | false => exact h1

theorem inv_indexReceiptEntryOps (node : Node) (txid : String)
    (blk : RpcBlock) (receipt : RpcReceipt) (s : Store)
    (hinv : tokenRefInv s) :
    tokenRefInv
      (applyOps s (indexReceiptEntryOps node txid blk receipt).1) := by
  cases hl : receipt.log with
  | none =>
      simp only [indexReceiptEntryOps, hl]
      cases hca : receipt.contractAddress with
      | none => exact hinv
      | some ca =>
          exact inv_applyOp_noNewTransfer s (detectTokenOp node ca) rfl hinv
  | some logs =>
      simp only [indexReceiptEntryOps, hl]
      rcases hE : indexLogsOps node txid blk 0 logs with ⟨logOps, ok⟩
      have h1 : tokenRefInv (applyOps s logOps) := by
        have h2 := inv_indexLogsOps node txid blk 0 logs s hinv
        rw [hE] at h2
        exact h2
      cases ok with
      | false => exact h1
      | true =>
          cases hca : receipt.contractAddress with
          | none => exact h1
          | some ca =>
              show tokenRefInv
                (applyOps s (logOps ++ [detectTokenOp node ca]))
              rw [applyOps_append]
              exact inv_applyOp_noNewTransfer _ (detectTokenOp node ca)
                rfl h1

theorem inv_indexReceiptsOps (node : Node) (txid : String)
    (blk : RpcBlock) :
    ∀ (receipts : List RpcReceipt) (s : Store), tokenRefInv s →
      tokenRefInv
        (applyOps s (indexReceiptsOps node txid blk receipts).1) := by
  intro receipts
  induction receipts with
  | nil => intro s hinv; exact hinv
  | cons r rest ih =>
      intro s hinv
      unfold indexReceiptsOps
      rcases hE : indexReceiptEntryOps node txid blk r with ⟨ops1, ok⟩
      have h1 : tokenRefInv (applyOps s ops1) := by
        have h2 := inv_indexReceiptEntryOps node txid blk r s hinv
        rw [hE] at h2
        exact h2
      cases ok with
      | true =>
          show tokenRefInv (applyOps s
            (ops1 ++ (indexReceiptsOps node txid blk rest).1))
          rw [applyOps_append]
          exact ih _ h1
      | false => exact h1

theorem inv_indexReceiptOps (node : Node) (txid : String) (blk : RpcBlock)
    (s : Store) (hinv : tokenRefInv s) :
    tokenRefInv (applyOps s (indexReceiptOps node txid blk)) := by
  unfold indexReceiptOps
  cases hres : node.getTransactionReceipt txid with
  | error e => exact hinv
  | ok o =>
      cases o with
      | none => exact hinv
      | some receipts =>
          exact inv_indexReceiptsOps node txid blk receipts s hinv

theorem inv_flatten_receipts (node : Node) (b : RpcBlock) :
    ∀ (txs : List RpcTx) (s : Store), tokenRefInv s →
      tokenRefInv (applyOps s
        ((txs.map (fun tx => indexReceiptOps node tx.txid b)).flatten)) := by
  intro txs
  induction txs with
  | nil => intro s hinv; exact hinv
  | cons tx rest ih =>
      intro s hinv
      rw [List.map_cons, List.flatten_cons, applyOps_append]
      exact ih _ (inv_indexReceiptOps node tx.txid b s hinv)

theorem inv_blockReceiptOps (node : Node) (b : RpcBlock) (s : Store)
    (hinv : tokenRefInv s) :
    tokenRefInv (applyOps s (blockReceiptOps node b)) := by
  unfold blockReceiptOps
  rw [foldl_append_eq, List.nil_append]
  exact inv_flatten_receipts node b (b.tx.getD []) s hinv

theorem inv_indexBlock (node : Node) (s s2 : Store) (h : Int)
    (hr : indexBlock node s h = .ok s2) (hinv : tokenRefInv s) :
    tokenRefInv s2 := by
  cases hb : node.getBlock h with
  | error e =>
      rw [indexBlock, indexBlockOps, hb] at hr
      cases hr
  | ok ob =>
      cases ob with
      | none =>
          rw [indexBlock_notFound node s h hb] at hr
          injection hr with h1
          subst h1
          exact hinv
      | some b =>
          rw [indexBlock_found node s h b hb] at hr
          injection hr with h1
          subst h1
          exact inv_blockReceiptOps node b _
            (inv_applyOp_noNewTransfer s
              (.blockUnit (blockRowOf h b)
                (buildTxRows b 0 (b.tx.getD []))) rfl hinv)

theorem inv_runBatch (node : Node) (hs : List Int) (s : Store)
    (hinv : tokenRefInv s) : tokenRefInv (runBatch node s hs).1 := by
  induction hs generalizing s with
  | nil => exact hinv
  | cons hgt rest ih =>
      unfold runBatch
      cases hr : indexBlock node s hgt with
      | ok s2 => exact ih s2 (inv_indexBlock node s s2 hgt hr hinv)
      | error e => exact hinv

theorem inv_syncStep (node : Node) (s : Store) (hinv : tokenRefInv s) :
    tokenRefInv (syncStep node s).1 := by
  unfold syncStep
  cases node.getBlockCount with
  | error e => exact hinv
  | ok chainHeight =>
      dsimp only
      by_cases hle : chainHeight ≤ getLastIndexedBlock s
      · rw [if_pos hle]
        exact hinv
      · rw [if_neg hle]
        by_cases hok : (runBatch node s
            (heightsFromTo (getLastIndexedBlock s + 1)
              (min (getLastIndexedBlock s + 1 + (batchSize : Int) - 1)
                chainHeight))).2.2 = true
        · simp only [hok, if_true]
          exact inv_runBatch node _ s hinv
        · simp only [hok, Bool.false_eq_true, if_false]
          exact inv_runBatch node _ s hinv

/-- C7: the store invariant "every TokenTransfer row references a Token
row that exists" is preserved by every indexer operation: `detectToken`
inserts (or finds) the Token row for the emitting address — with
placeholder metadata if probes fail — strictly before `insertTransfer`
runs, and no operation removes Token rows. -/
theorem C7_token_ref_invariant (node : Node) (s : Store)
    (hinv : tokenRefInv s) :
    (∀ (h : Int) (s2 : Store),
      indexBlock node s h = .ok s2 → tokenRefInv s2) ∧
    tokenRefInv (syncStep node s).1 :=
  ⟨fun h s2 hr => inv_indexBlock node s s2 h hr hinv,
   inv_syncStep node s hinv⟩

/-- C7 witness: the invariant theorem applied to the empty store and the
concrete node, with the hypothesis decided. -/
theorem C7_token_ref_invariant_witness :
    (∀ (h : Int) (s2 : Store),
      indexBlock exNode emptyStore h = .ok s2 → tokenRefInv s2) ∧
    tokenRefInv (syncStep exNode emptyStore).1 :=
  C7_token_ref_invariant exNode emptyStore (by decide)

/-! ## C8 -/

/-- C8: `detectToken(address)` returns the stored Token row with no node
calls when one exists for the lower-cased address; otherwise it issues
exactly the four read probes (name, symbol, decimals, total supply),
absorbs each probe's failure independently by substituting `"Unknown"`,
`"???"`, `18`, `"0"` respectively, and always persists the resulting
Token row — no single probe failure prevents the write. -/
theorem C8_detectToken_contract (node : Node) (s : Store) (addr : String) :
    (∀ row, getToken s (toLowerStr addr) = some row →
      detectToken node s addr = (some row, s, [])) ∧
    (getToken s (toLowerStr addr) = none →
      (detectToken node s addr).2.2
        = [ProbeCall.name, ProbeCall.symbol, ProbeCall.decimals,
           ProbeCall.totalSupply] ∧
      getToken (detectToken node s addr).2.1 (toLowerStr addr)
        = some (detectTokenRow node addr) ∧
      (detectTokenRow node addr).name
        = (match node.getTokenName addr with
           | .ok v => v
           | .error _ => "Unknown") ∧
      (detectTokenRow node addr).symbol
        = (match node.getTokenSymbol addr with
           | .ok v => v
           | .error _ => "???") ∧
      (detectTokenRow node addr).decimals
        = (match node.getTokenDecimals addr with
           | .ok v => v
           | .error _ => 18) ∧
      (detectTokenRow node addr).totalSupply
        = (match node.getTokenTotalSupply addr with
           | .ok v => v
           | .error _ => "0")) := by
  constructor
  · intro row h
    unfold detectToken
    rw [h]
  · intro h
    unfold detectToken
    rw [h]
    refine ⟨rfl, ?_, ?_, ?_, ?_, ?_⟩
    · show getToken (insertTokenRow s (detectTokenRow node addr))
        (toLowerStr addr) = some (detectTokenRow node addr)
      rw [getToken_insertTokenRow]
      exact if_pos rfl
    · cases hx : node.getTokenName addr <;>
        simp [detectTokenRow, Except.toOption, hx]
    · cases hx : node.getTokenSymbol addr <;>
        simp [detectTokenRow, Except.toOption, hx]
    · cases hx : node.getTokenDecimals addr <;>
        simp [detectTokenRow, Except.toOption, hx]
    · cases hx : node.getTokenTotalSupply addr <;>
        simp [detectTokenRow, Except.toOption, hx]

/-- C8 witness: the fresh-token case of the contract at the concrete
node (whose symbol probe fails) and the empty store. -/
theorem C8_detectToken_contract_witness :
    (detectToken exNode emptyStore "0xToKenAddr").2.2
      = [ProbeCall.name, ProbeCall.symbol, ProbeCall.decimals,
         ProbeCall.totalSupply] ∧
    getToken (detectToken exNode emptyStore "0xToKenAddr").2.1
        (toLowerStr "0xToKenAddr")
      = some (detectTokenRow exNode "0xToKenAddr") ∧
    (detectTokenRow exNode "0xToKenAddr").name
      = (match exNode.getTokenName "0xToKenAddr" with
         | .ok v => v
         | .error _ => "Unknown") ∧
    (detectTokenRow exNode "0xToKenAddr").symbol
      = (match exNode.getTokenSymbol "0xToKenAddr" with
         | .ok v => v
         | .error _ => "???") ∧
    (detectTokenRow exNode "0xToKenAddr").decimals
      = (match exNode.getTokenDecimals "0xToKenAddr" with
         | .ok v => v
         | .error _ => 18) ∧
    (detectTokenRow exNode "0xToKenAddr").totalSupply
      = (match exNode.getTokenTotalSupply "0xToKenAddr" with
         | .ok v => v
         | .error _ => "0") :=
  (C8_detectToken_contract exNode emptyStore "0xToKenAddr").2 rfl

/-! ## C9 -/

theorem getBal_setBal (m : List (String × Int)) (a : String) (v : Int)
    (x : String) :
    getBal (setBal m a v) x = if x = a then some v else getBal m x := by
  induction m with
  | nil =>
      by_cases h : x = a
      · subst h
        simp [setBal, getBal, findBy]
      · have h2 : ¬ a = x := fun hh => h hh.symm
        simp [setBal, getBal, findBy, h, h2]
  | cons p rest ih =>
      rcases p with ⟨b, w⟩
      by_cases hba : b = a
      · subst hba
        by_cases hx : b = x
        · subst hx
          simp [setBal, getBal, findBy]
        · have hx2 : ¬ x = b := fun hh => hx hh.symm
          simp [setBal, getBal, findBy, hx, hx2]
      · rw [show setBal ((b, w) :: rest) a v = (b, w) :: setBal rest a v
          from by simp [setBal, hba]]
        by_cases hx : b = x
        · subst hx
          have hxa : ¬ b = a := hba
          simp [getBal, findBy, hxa]
        · have hL : getBal ((b, w) :: setBal rest a v) x
              = getBal (setBal rest a v) x := by simp [getBal, findBy, hx]
          have hR : getBal ((b, w) :: rest) x = getBal rest x := by
            simp [getBal, findBy, hx]
          rw [hL, hR]
          exact ih

theorem step_get (m : List (String × Int)) (K Z x : String) (w : Int) :
    (getBal (if K ≠ Z then setBal m K w else m) x).getD 0
      = if K = x ∧ K ≠ Z then w else (getBal m x).getD 0 := by
  by_cases hKz : K ≠ Z
  · rw [if_pos hKz, getBal_setBal]
    by_cases hx : x = K
    · subst hx
      simp [hKz]
    · have hx2 : ¬ K = x := fun hh => hx hh.symm
      simp [hx, hx2]
  · rw [if_neg hKz]
    simp [hKz]

theorem bal_two_step (m : List (String × Int)) (F T Z a : String)
    (v : Int) :
    (getBal
      (if T ≠ Z then
        setBal (if F ≠ Z then setBal m F ((getBal m F).getD 0 - v) else m)
          T ((getBal (if F ≠ Z then
                setBal m F ((getBal m F).getD 0 - v) else m) T).getD 0 + v)
      else (if F ≠ Z then setBal m F ((getBal m F).getD 0 - v) else m))
      a).getD 0
      = (getBal m a).getD 0
        + ((if T = a ∧ a ≠ Z then v else 0)
            - (if F = a ∧ a ≠ Z then v else 0)) := by
  rw [step_get, step_get, step_get]
  by_cases hFa : F = a <;> by_cases hTa : T = a <;> by_cases hz : a = Z <;>
    simp_all <;> omega

theorem getBal_applyTransferLog (m : List (String × Int)) (lg : RpcLog)
    (a : String) :
    (getBal (applyTransferLog m lg) a).getD 0
      = (getBal m a).getD 0 + transferDelta a lg := by
  unfold applyTransferLog transferDelta
  by_cases htop : lg.topics[0]? = some TRANSFER_TOPIC_SRV
  · rw [if_pos htop, if_pos htop]
    exact bal_two_step m (decodeAddress lg.topics[1]?)
      (decodeAddress lg.topics[2]?) ZERO_ADDR_HEX a
      (hexToNat (lg.data.getD "0") : Int)
  · rw [if_neg htop, if_neg htop]
    omega

theorem getBal_foldl (logs : List RpcLog) (m : List (String × Int))
    (a : String) :
    (getBal (logs.foldl applyTransferLog m) a).getD 0
      = (getBal m a).getD 0 + (logs.map (transferDelta a)).sum := by
  induction logs generalizing m with
  | nil => simp
  | cons lg rest ih =>
      simp only [List.foldl_cons, List.map_cons, List.sum_cons]
      rw [ih, getBal_applyTransferLog]
      ring

theorem foldl_over_lists (ls : List (List RpcLog))
    (m : List (String × Int)) :
    ls.foldl (fun m l => l.foldl applyTransferLog m) m
      = ls.flatten.foldl applyTransferLog m := by
  induction ls generalizing m with
  | nil => rfl
  | cons l rest ih =>
      simp only [List.foldl_cons, List.flatten_cons, List.foldl_append]
      exact ih _

theorem holdersBalances_eq (results : List SearchLogResult) :
    holdersBalances results
      = (flattenLogs results).foldl applyTransferLog [] := by
  unfold holdersBalances flattenLogs
  rw [foldl_append_eq (fun r => r.log.getD []) [] results,
    List.nil_append, ← foldl_over_lists, List.foldl_map]

theorem mem_keys_setBal (m : List (String × Int)) (a : String) (v : Int)
    (x : String) :
    x ∈ (setBal m a v).map Prod.fst ↔ x ∈ m.map Prod.fst ∨ x = a := by
  induction m with
  | nil => simp [setBal]
  | cons p rest ih =>
      rcases p with ⟨b, w⟩
      by_cases hba : b = a
      · subst hba
        simp [setBal]
        tauto
      · simp [setBal, hba, ih]
        tauto

theorem nodup_setBal (m : List (String × Int)) (a : String) (v : Int)
    (h : (m.map Prod.fst).Nodup) :
    ((setBal m a v).map Prod.fst).Nodup := by
  induction m with
  | nil => simp [setBal]
  | cons p rest ih =>
      rcases p with ⟨b, w⟩
      simp only [List.map_cons, List.nodup_cons] at h
      by_cases hba : b = a
      · subst hba
        simpa [setBal] using h
      · rw [show setBal ((b, w) :: rest) a v = (b, w) :: setBal rest a v
          from by simp [setBal, hba]]
        simp only [List.map_cons, List.nodup_cons]
        refine ⟨?_, ih h.2⟩
        rw [mem_keys_setBal]
        rintro (hmem | hmem)
        · exact h.1 hmem
        · exact hba hmem

theorem nodup_applyTransferLog (m : List (String × Int)) (lg : RpcLog)
    (h : (m.map Prod.fst).Nodup) :
    ((applyTransferLog m lg).map Prod.fst).Nodup := by
  unfold applyTransferLog
  by_cases htop : lg.topics[0]? = some TRANSFER_TOPIC_SRV
  · rw [if_pos htop]
    by_cases hFz : decodeAddress lg.topics[1]? ≠ ZERO_ADDR_HEX <;>
      by_cases hTz : decodeAddress lg.topics[2]? ≠ ZERO_ADDR_HEX <;>
        simp only [hFz, hTz, if_true, if_false, ite_true, ite_false,
          ite_not] <;>
      first
        | exact nodup_setBal _ _ _ (nodup_setBal _ _ _ h)
        | exact nodup_setBal _ _ _ h
        | exact h
  · rw [if_neg htop]
    exact h

theorem nodup_foldl_logs (logs : List RpcLog) (m : List (String × Int))
    (h : (m.map Prod.fst).Nodup) :
    ((logs.foldl applyTransferLog m).map Prod.fst).Nodup := by
  induction logs generalizing m with
  | nil => exact h
  | cons lg rest ih =>
      exact ih _ (nodup_applyTransferLog m lg h)

theorem nodup_holdersBalances (results : List SearchLogResult) :
    ((holdersBalances results).map Prod.fst).Nodup := by
  rw [holdersBalances_eq]
  exact nodup_foldl_logs _ [] (by simp)

theorem mem_iff_getBal (m : List (String × Int))
    (hnd : (m.map Prod.fst).Nodup) (a : String) (b : Int) :
    (a, b) ∈ m ↔ getBal m a = some b := by
  induction m with
  | nil => simp [getBal, findBy]
  | cons p rest ih =>
      rcases p with ⟨c, w⟩
      simp only [List.map_cons, List.nodup_cons] at hnd
      by_cases hca : c = a
      · subst hca
        constructor
        · rintro hmem
          rcases List.mem_cons.mp hmem with heq | hmem2
          · injection heq with h1 h2
            subst h2
            simp [getBal, findBy]
          · exfalso
            exact hnd.1 (List.mem_map.mpr ⟨(c, b), hmem2, rfl⟩)
        · intro hget
          simp only [getBal, findBy, if_pos rfl] at hget
          injection hget with h1
          subst h1
          exact List.mem_cons_self _ _
      · constructor
        · intro hmem
          rcases List.mem_cons.mp hmem with heq | hmem2
          · injection heq with h1 h2
            exact absurd h1.symm hca
          · rw [show getBal ((c, w) :: rest) a = getBal rest a from by
              simp [getBal, findBy, hca]]
            exact (ih hnd.2).mp hmem2
        · intro hget
          rw [show getBal ((c, w) :: rest) a = getBal rest a from by
            simp [getBal, findBy, hca]] at hget
          exact List.mem_cons_of_mem _ ((ih hnd.2).mpr hget)

/-- C9: the holders endpoint computes each address's balance as the
ordered sum of signed Transfer deltas (value subtracted from the sender,
added to the recipient, the zero address excluded on both sides), and the
reported holders are exactly the addresses whose resulting balance is
strictly positive. -/
theorem C9_holders (results : List SearchLogResult) (a : String) :
    (getBal (holdersBalances results) a).getD 0
      = specSignedBalance results a ∧
    (∀ b : Int, (a, b) ∈ holdersOf results →
      b = specSignedBalance results a ∧ 0 < b) ∧
    ((∃ b : Int, (a, b) ∈ holdersOf results)
      ↔ 0 < specSignedBalance results a) := by
  have hbal : (getBal (holdersBalances results) a).getD 0
      = specSignedBalance results a := by
    rw [holdersBalances_eq, getBal_foldl]
    simp [specSignedBalance, getBal, findBy]
  have hmem : ∀ b : Int, (a, b) ∈ holdersOf results →
      b = specSignedBalance results a ∧ 0 < b := by
    intro b hb
    unfold holdersOf at hb
    rw [List.mem_filter] at hb
    have hpos : 0 < b := by
      have := hb.2
      simpa using this
    have hget : getBal (holdersBalances results) a = some b :=
      (mem_iff_getBal _ (nodup_holdersBalances results) a b).mp hb.1
    refine ⟨?_, hpos⟩
    rw [← hbal, hget]
    rfl
  refine ⟨hbal, hmem, ?_, ?_⟩
  · rintro ⟨b, hb⟩
    obtain ⟨hbspec, hbpos⟩ := hmem b hb
    rw [← hbspec]
    exact hbpos
  · intro hpos
    cases hget : getBal (holdersBalances results) a with
    | none =>
        exfalso
        rw [← hbal, hget] at hpos
        exact lt_irrefl 0 hpos
    | some b =>
        refine ⟨b, ?_⟩
        unfold holdersOf
        rw [List.mem_filter]
        refine ⟨(mem_iff_getBal _ (nodup_holdersBalances results) a b).mpr
          hget, ?_⟩
        have hbv : b = specSignedBalance results a := by
          rw [← hbal, hget]
          rfl
        simp only [decide_eq_true_eq]
        rw [hbv]
        exact hpos

/-- C9 witness: the holders theorem instantiated at the concrete
two-transfer fixture (a mint of 1000 to `aa…aa`, then 16 moved to
`bb…bb`). -/
theorem C9_holders_witness :
    (getBal (holdersBalances srvResults)
        "aaaaaaaaaaaaaaaaaaaaaaaaaaaaaaaaaaaaaaaa").getD 0
      = specSignedBalance srvResults
          "aaaaaaaaaaaaaaaaaaaaaaaaaaaaaaaaaaaaaaaa" ∧
    (∀ b : Int,
      ("aaaaaaaaaaaaaaaaaaaaaaaaaaaaaaaaaaaaaaaa", b)
          ∈ holdersOf srvResults →
      b = specSignedBalance srvResults
            "aaaaaaaaaaaaaaaaaaaaaaaaaaaaaaaaaaaaaaaa" ∧ 0 < b) ∧
    ((∃ b : Int,
        ("aaaaaaaaaaaaaaaaaaaaaaaaaaaaaaaaaaaaaaaa", b)
          ∈ holdersOf srvResults)
      ↔ 0 < specSignedBalance srvResults
          "aaaaaaaaaaaaaaaaaaaaaaaaaaaaaaaaaaaaaaaa") :=
  C9_holders srvResults "aaaaaaaaaaaaaaaaaaaaaaaaaaaaaaaaaaaaaaaa"

/-! ## C10 -/

/-- C10: on a fresh store (no `last_block` row) `getLastIndexedBlock`
returns −1, so the first sync iteration starts at height 0 and runs the
batch `[0, min(batchSize − 1, chainHeight)]` — genesis is indexed with no
explicit cursor initialisation. -/
theorem C10_fresh_store (node : Node) (hgt : Int)
    (hh : node.getBlockCount = .ok hgt) (hge : 0 ≤ hgt) :
    getLastIndexedBlock emptyStore = -1 ∧
    syncStep node emptyStore
      = (if (runBatch node emptyStore (heightsFromTo 0 (min 9 hgt))).2.2
         then setLastIndexedBlock
            (runBatch node emptyStore (heightsFromTo 0 (min 9 hgt))).1
            (min 9 hgt)
         else (runBatch node emptyStore (heightsFromTo 0 (min 9 hgt))).1,
         (runBatch node emptyStore (heightsFromTo 0 (min 9 hgt))).2.1) := by
  refine ⟨rfl, ?_⟩
  unfold syncStep
  rw [hh]
  dsimp only
  rw [show getLastIndexedBlock emptyStore = -1 from rfl]
  rw [if_neg (by omega : ¬ hgt ≤ (-1 : Int))]
  rw [show (-1 : Int) + 1 = 0 by norm_num]
  rw [show (0 : Int) + (batchSize : Int) - 1 = 9 by simp [batchSize]]
  by_cases hok : (runBatch node emptyStore
      (heightsFromTo 0 (min 9 hgt))).2.2 = true
  · simp [hok]
  · simp [hok]

/-- C10 witness: the fresh-store theorem at the concrete node of chain
height 0 (batch `[0]`). -/
theorem C10_fresh_store_witness :
    getLastIndexedBlock emptyStore = -1 ∧
    syncStep exNode emptyStore
      = (if (runBatch exNode emptyStore (heightsFromTo 0 (min 9 0))).2.2
         then setLastIndexedBlock
            (runBatch exNode emptyStore (heightsFromTo 0 (min 9 0))).1
            (min 9 0)
         else (runBatch exNode emptyStore (heightsFromTo 0 (min 9 0))).1,
         (runBatch exNode emptyStore (heightsFromTo 0 (min 9 0))).2.1) :=
  C10_fresh_store exNode 0 rfl (by norm_num)
